import Mathlib

/-!
# Verification of the DXE core timer services (`MdeModulePkg/Core/Dxe/Event/timer.c`)

A shallow embedding of the timer subsystem: the monotonic system time
(`mEfiSystemTime`), the sorted timer queue (`mEfiTimerList`), the expiry scan
(`CoreCheckTimers`), sorted insertion (`CoreInsertEventTimer`), the tick path
(`CoreTimerTick`) and the public arm/cancel entry point (`CoreSetTimer`).

Events are identified by an arena index `EventId`; the intrusive doubly linked
list of the C code becomes a `List EventId` kept in queue order, and the
`Link.ForwardLink != NULL` "is queued" sentinel becomes list membership.
All 64-bit arithmetic is carried out on `Nat` with explicit reduction
modulo `2 ^ 64`.
-/

/-- The modulus of the C `UINT64` arithmetic used throughout `timer.c`. -/
def U64 : Nat := 2 ^ 64

/-- EVENT_SIGNATURE from the DXE core event code: SIGNATURE_32 of the bytes evnt. -/
def EVENT_SIGNATURE : Nat := 0x746e7665

/-- EVT_TIMER bit of the event type mask. -/
def EVT_TIMER : Nat := 0x80000000

/-- TPL_HIGH_LEVEL, the highest task priority level of the UEFI TPL table. -/
def TPL_HIGH_LEVEL : Nat := 31

/-- The `EFI_TIMER_DELAY` enumerator `TimerCancel` (C value 0). -/
def timerCancel : Int := 0

/-- The `EFI_TIMER_DELAY` enumerator `TimerPeriodic` (C value 1). -/
def timerPeriodic : Int := 1

/-- The `EFI_TIMER_DELAY` enumerator `TimerRelative` (C value 2). -/
def timerRelative : Int := 2

/-- Arena index standing for an `IEVENT *`. -/
abbrev EventId := Nat

/-- The `u.Timer` payload of an `IEVENT`: absolute deadline and period. -/
structure TimerData where
  triggerTime : Nat
  period : Nat
deriving DecidableEq

/-- The fields of an `IEVENT` that `CoreSetTimer` validates and that never
change during timer operations: the structure signature and the event type
bit mask. -/
structure EventAttrs where
  signature : Nat
  evType : Nat
deriving DecidableEq

/-- Return status of `CoreSetTimer` (`EFI_SUCCESS` / `EFI_INVALID_PARAMETER`). -/
inductive Status where
  | success
  | invalidParameter
deriving DecidableEq

/-- State of the timer subsystem.

* `attrs` — immutable per-event signature/type fields;
* `systemTime` — `mEfiSystemTime`;
* `timers` — the `u.Timer` payload of each event;
* `queue` — `mEfiTimerList`, head first;
* `checkSignaled` — whether a `CoreSignalEvent (mEfiCheckTimerEvent)` request
  is pending (the external signal mechanism coalesces repeats);
* `signaled` — instrumentation: the log of `CoreSignalEvent (Event)` calls on
  user events, each recorded with the `TriggerTime` the entry held when it was
  signalled. -/
structure TState where
  attrs : EventId → EventAttrs
  systemTime : Nat
  timers : EventId → TimerData
  queue : List EventId
  checkSignaled : Bool
  signaled : List (EventId × Nat)

/-- CoreCurrentSystemTime: reads `mEfiSystemTime` under `mEfiSystemTimeLock`. -/
def CoreCurrentSystemTime (st : TState) : Nat :=
  st.systemTime

/-- CoreTimerTick: adds `Duration` to `mEfiSystemTime` (64-bit wrap), then, if
the head of the timer list is expired, signals the check-timer event. -/
def CoreTimerTick (st : TState) (Duration : Nat) : TState :=
  let newTime := (st.systemTime + Duration) % U64
  let st1 := { st with systemTime := newTime }
  match st1.queue with
  | [] => st1
  | e :: _ =>
    if (st1.timers e).triggerTime ≤ newTime then
      { st1 with checkSignaled := true }
    else
      st1

/-- CoreInsertEventTimer: scans from the head of the list and stops at the
first entry whose `TriggerTime` strictly exceeds the new entry's
`TriggerTime`; the new entry is linked immediately before that point
(`InsertTailList (Link, ...)`). -/
def CoreInsertEventTimer (tm : EventId → TimerData) (e : EventId) :
    List EventId → List EventId
  | [] => [e]
  | x :: xs =>
    if (tm x).triggerTime > (tm e).triggerTime then
      e :: x :: xs
    else
      x :: CoreInsertEventTimer tm e xs

/-- One iteration of the `while` loop of `CoreCheckTimers`, against the time
snapshot `now`. `none` means the loop exits (empty list, or head not yet
expired); `some st'` is the state after processing the head once. -/
def checkTimersStep (now : Nat) (st : TState) : Option TState :=
  match st.queue with
  | [] => none
  | e :: rest =>
    let td := st.timers e
    if now < td.triggerTime then
      none
    else
      let st1 := { st with
                   queue := rest
                   signaled := st.signaled ++ [(e, td.triggerTime)] }
      if td.period ≠ 0 then
        let tt1 := (td.triggerTime + td.period) % U64
        if tt1 ≤ now then
          let tm2 := Function.update st1.timers e ⟨now, td.period⟩
          some { st1 with
                 timers := tm2
                 checkSignaled := true
                 queue := CoreInsertEventTimer tm2 e rest }
        else
          let tm2 := Function.update st1.timers e ⟨tt1, td.period⟩
          some { st1 with
                 timers := tm2
                 queue := CoreInsertEventTimer tm2 e rest }
      else
        some st1

/-- The drain loop of `CoreCheckTimers`, with explicit fuel (the C loop has no
fuel; enough fuel makes the two agree, and the fuel exposes the one divergent
corner, the 64-bit rearm overflow, as an unbounded loop). -/
def checkTimersLoop : Nat → Nat → TState → TState
  | 0, _, st => st
  | fuel + 1, now, st =>
    match checkTimersStep now st with
    | none => st
    | some st' => checkTimersLoop fuel now st'

/-- CoreCheckTimers: under `mEfiTimerLock`, read the system time once, then
drain every expired head entry, re-arming periodic ones. -/
def CoreCheckTimers (fuel : Nat) (st : TState) : TState :=
  checkTimersLoop fuel (CoreCurrentSystemTime st) st

/-- CoreSetTimer: validates the event and the delay type, removes the event
from the timer list if queued, zeroes its timer fields, and, unless the type
is `TimerCancel`, re-arms it (storing the period for `TimerPeriodic`),
computes the absolute deadline from the current time, inserts it in sorted
order, and for a zero `TriggerTime` argument signals the check-timer event. -/
def CoreSetTimer (st : TState) (UserEvent : Option EventId) (ty : Int)
    (TriggerTime : Nat) : TState × Status :=
  match UserEvent with
  | none => (st, Status.invalidParameter)
  | some e =>
    if (st.attrs e).signature ≠ EVENT_SIGNATURE then
      (st, Status.invalidParameter)
    else if ty < 0 ∨ ty > timerRelative ∨ (st.attrs e).evType &&& EVT_TIMER = 0 then
      (st, Status.invalidParameter)
    else
      let st1 := if e ∈ st.queue then { st with queue := st.queue.erase e } else st
      let tm1 := Function.update st1.timers e ⟨0, 0⟩
      if ty ≠ timerCancel then
        let per := if ty = timerPeriodic then TriggerTime else 0
        let tm2 := Function.update tm1 e ⟨(st1.systemTime + TriggerTime) % U64, per⟩
        let st2 := { st1 with
                     timers := tm2
                     queue := CoreInsertEventTimer tm2 e st1.queue }
        if TriggerTime = 0 then
          ({ st2 with checkSignaled := true }, Status.success)
        else
          (st2, Status.success)
      else
        ({ st1 with timers := tm1 }, Status.success)

/-- The state right after `CoreInitializeTimer`: empty list, zero time. -/
def initState (attrs : EventId → EventAttrs) : TState :=
  { attrs := attrs
    systemTime := 0
    timers := fun _ => ⟨0, 0⟩
    queue := []
    checkSignaled := false
    signaled := [] }

/-- Run a sequence of `CoreSetTimer` calls, keeping only the states. -/
def runSetTimers (st : TState) (calls : List (Option EventId × Int × Nat)) : TState :=
  calls.foldl (fun s c => (CoreSetTimer s c.1 c.2.1 c.2.2).1) st

/-- Run a sequence of `CoreTimerTick` calls. -/
def runTicks (st : TState) (ds : List Nat) : TState :=
  ds.foldl CoreTimerTick st

/-- The two EFI locks of `timer.c`. -/
inductive LockId where
  | timerLock
  | systemTimeLock
deriving DecidableEq

/-- The TPL at which each lock is created: `mEfiTimerLock` (the timer-queue
lock) at `TPL_HIGH_LEVEL - 1`, `mEfiSystemTimeLock` (the clock lock) at
`TPL_HIGH_LEVEL`. -/
def lockTpl : LockId → Nat
  | LockId.timerLock => TPL_HIGH_LEVEL - 1
  | LockId.systemTimeLock => TPL_HIGH_LEVEL

/-- Acquire/release events, for recording each routine's locking behaviour. -/
inductive LockEvent where
  | acq (l : LockId)
  | rel (l : LockId)
deriving DecidableEq

/-- Lock trace of `CoreCurrentSystemTime`. -/
def currentSystemTimeTrace : List LockEvent :=
  [LockEvent.acq LockId.systemTimeLock, LockEvent.rel LockId.systemTimeLock]

/-- Lock trace of `CoreTimerTick` (the queue peek happens with no queue lock). -/
def coreTimerTickTrace : List LockEvent :=
  [LockEvent.acq LockId.systemTimeLock, LockEvent.rel LockId.systemTimeLock]

/-- Lock trace of `CoreCheckTimers`: the timer lock, with
`CoreCurrentSystemTime` nested inside it. -/
def coreCheckTimersTrace : List LockEvent :=
  [LockEvent.acq LockId.timerLock] ++ currentSystemTimeTrace
    ++ [LockEvent.rel LockId.timerLock]

/-- Lock trace of `CoreSetTimer`: nothing when validation fails; otherwise the
timer lock, with `CoreCurrentSystemTime` nested inside it unless the type is
`TimerCancel`. -/
def coreSetTimerTrace (validParams isCancel : Bool) : List LockEvent :=
  if validParams then
    [LockEvent.acq LockId.timerLock]
      ++ (if isCancel then [] else currentSystemTimeTrace)
      ++ [LockEvent.rel LockId.timerLock]
  else
    []

/-- Does the trace acquire `l2` only at moments when `l1` is already held?
`held` is the multiset of currently held locks. -/
def acqOnlyWhileHolding (l2 l1 : LockId) : List LockEvent → List LockId → Bool
  | [], _ => true
  | LockEvent.acq l :: tr, held =>
    (if l = l2 then held.contains l1 else true)
      && acqOnlyWhileHolding l2 l1 tr (l :: held)
  | LockEvent.rel l :: tr, held =>
    acqOnlyWhileHolding l2 l1 tr (held.erase l)

/-- The deadlines at which event `y` was signalled, in log order. -/
def deadlinesFor (y : EventId) (log : List (EventId × Nat)) : List Nat :=
  log.filterMap (fun p => if p.1 = y then some p.2 else none)

/-- The queue, inspected head-to-tail, has non-decreasing `TriggerTime`. -/
def SortedQ (st : TState) : Prop :=
  (st.queue.map (fun x => (st.timers x).triggerTime)).Pairwise (· ≤ ·)

instance (st : TState) : Decidable (SortedQ st) := by
  unfold SortedQ
  infer_instance


/-- Invariant carried through one drain pass with snapshot `now`: the queue
has no duplicates, no event has yet been signalled twice at the same deadline
(its logged deadlines strictly increase), every queued event's stored deadline
is strictly above everything already logged for it, and re-arming any queued
event cannot overflow 64 bits relative to `now`. -/
def C1Inv (now : Nat) (st : TState) : Prop :=
  st.queue.Nodup
  ∧ (∀ y, (deadlinesFor y st.signaled).Pairwise (· < ·))
  ∧ (∀ x ∈ st.queue, ∀ d ∈ deadlinesFor x st.signaled, d < (st.timers x).triggerTime)
  ∧ (∀ x ∈ st.queue, now + (st.timers x).period < U64)

/-- An attribute table in which every event is a valid timer event. -/
def attrs0 : EventId → EventAttrs := fun _ => ⟨EVENT_SIGNATURE, EVT_TIMER⟩

/-- The freshly initialized subsystem in which every event is a valid timer. -/
def st0 : TState := initState attrs0

/-- An attribute table whose events carry `EVT_TIMER` but a corrupted
signature, as for an object that is not a live event. -/
def attrsBad : EventId → EventAttrs := fun _ => ⟨0, EVT_TIMER⟩

/-- A state holding one expired periodic timer: deadline 10, period 10,
inspected at time 35 (two full periods behind). -/
def stPer : TState where
  attrs := attrs0
  systemTime := 35
  timers := fun _ => ⟨10, 10⟩
  queue := [0]
  checkSignaled := false
  signaled := []

/-- A state at the far end of the 64-bit clock: one periodic timer whose
re-arm computation `TriggerTime + Period` overflows `UINT64`. -/
def stOverflow : TState where
  attrs := attrs0
  systemTime := U64 - 1
  timers := fun _ => ⟨U64 - 1, U64 - 1⟩
  queue := [0]
  checkSignaled := false
  signaled := []

/-- Bound on how often one queue entry can be processed in a single drain
pass with snapshot `now`: an unexpired entry is not processed, an expired
entry whose re-arm would clamp is processed twice, any other expired entry
once. -/
def rearmWeight (now : Nat) (tm : EventId → TimerData) (x : EventId) : Nat :=
  if (tm x).triggerTime > now then 0
  else if (tm x).period ≠ 0 ∧ ((tm x).triggerTime + (tm x).period) % U64 ≤ now then 2
  else 1

/-- Termination measure of a drain pass with snapshot `now`: total processing
bound over the queue. -/
def drainMeasure (now : Nat) (st : TState) : Nat :=
  (st.queue.map (rearmWeight now st.timers)).sum

/-! ## Helper lemmas: sorted insertion -/

theorem insertTimer_eq (tm : EventId → TimerData) (e : EventId) (l : List EventId) :
    CoreInsertEventTimer tm e l
      = l.takeWhile (fun x => (tm x).triggerTime ≤ (tm e).triggerTime)
        ++ e :: l.dropWhile (fun x => (tm x).triggerTime ≤ (tm e).triggerTime) := by
  induction l with
  | nil => rfl
  | cons x xs ih =>
    by_cases h : (tm e).triggerTime < (tm x).triggerTime
    · have hd : (decide ((tm x).triggerTime ≤ (tm e).triggerTime)) = false := by
        simp [Nat.not_le_of_lt h]
      simp [CoreInsertEventTimer, h, List.takeWhile_cons, List.dropWhile_cons, hd]
    · have hle : (tm x).triggerTime ≤ (tm e).triggerTime := Nat.le_of_not_lt h
      have hd : (decide ((tm x).triggerTime ≤ (tm e).triggerTime)) = true := by
        simp [hle]
      simp [CoreInsertEventTimer, h, List.takeWhile_cons, List.dropWhile_cons, hd, ih]

theorem insertTimer_perm (tm : EventId → TimerData) (e : EventId) (l : List EventId) :
    (CoreInsertEventTimer tm e l).Perm (e :: l) := by
  induction l with
  | nil => exact List.Perm.refl _
  | cons x xs ih =>
    by_cases h : (tm e).triggerTime < (tm x).triggerTime
    · simp only [CoreInsertEventTimer, if_pos h]
      exact List.Perm.refl _
    · simp only [CoreInsertEventTimer, if_neg h]
      exact (ih.cons x).trans (List.Perm.swap e x xs)

theorem mem_insertTimer {tm : EventId → TimerData} {e x : EventId} {l : List EventId} :
    x ∈ CoreInsertEventTimer tm e l ↔ x = e ∨ x ∈ l := by
  rw [(insertTimer_perm tm e l).mem_iff, List.mem_cons]

theorem insertTimer_nodup {tm : EventId → TimerData} {e : EventId} {l : List EventId}
    (hl : l.Nodup) (he : e ∉ l) : (CoreInsertEventTimer tm e l).Nodup :=
  (insertTimer_perm tm e l).nodup_iff.2 (List.nodup_cons.2 ⟨he, hl⟩)

theorem insertTimer_sorted {tm : EventId → TimerData} {e : EventId} {l : List EventId}
    (hl : (l.map fun x => (tm x).triggerTime).Pairwise (· ≤ ·)) :
    ((CoreInsertEventTimer tm e l).map fun x => (tm x).triggerTime).Pairwise (· ≤ ·) := by
  induction l with
  | nil => simp [CoreInsertEventTimer]
  | cons x xs ih =>
    rw [List.map_cons, List.pairwise_cons] at hl
    by_cases h : (tm e).triggerTime < (tm x).triggerTime
    · simp only [CoreInsertEventTimer, if_pos h, List.map_cons, List.pairwise_cons]
      refine ⟨?_, hl⟩
      intro b hb
      rcases List.mem_cons.1 hb with hb | hb
      · exact hb ▸ Nat.le_of_lt h
      · exact Nat.le_trans (Nat.le_of_lt h) (hl.1 b hb)
    · have hle : (tm x).triggerTime ≤ (tm e).triggerTime := Nat.le_of_not_lt h
      simp only [CoreInsertEventTimer, if_neg h, List.map_cons, List.pairwise_cons]
      refine ⟨?_, ih hl.2⟩
      intro b hb
      rcases List.mem_map.1 hb with ⟨y, hy, rfl⟩
      rcases mem_insertTimer.1 hy with rfl | hy
      · exact hle
      · exact hl.1 _ (List.mem_map_of_mem _ hy)

/-! ## Helper lemmas: the shapes of `CoreSetTimer` results -/

theorem setTimer_none (st : TState) (ty : Int) (t : Nat) :
    CoreSetTimer st none ty t = (st, Status.invalidParameter) := rfl

theorem setTimer_invalid_sig {st : TState} {e : EventId} (ty : Int) (t : Nat)
    (h : (st.attrs e).signature ≠ EVENT_SIGNATURE) :
    CoreSetTimer st (some e) ty t = (st, Status.invalidParameter) := by
  simp [CoreSetTimer, h]

theorem setTimer_invalid_kind {st : TState} {e : EventId} {ty : Int} (t : Nat)
    (h1 : (st.attrs e).signature = EVENT_SIGNATURE)
    (h : ty < 0 ∨ ty > timerRelative ∨ (st.attrs e).evType &&& EVT_TIMER = 0) :
    CoreSetTimer st (some e) ty t = (st, Status.invalidParameter) := by
  have hsig : ¬((st.attrs e).signature ≠ EVENT_SIGNATURE) := not_not_intro h1
  simp only [CoreSetTimer, if_neg hsig, if_pos h]

theorem setTimer_cancel {st : TState} {e : EventId} (t : Nat)
    (h1 : (st.attrs e).signature = EVENT_SIGNATURE)
    (h2 : (st.attrs e).evType &&& EVT_TIMER ≠ 0) :
    CoreSetTimer st (some e) timerCancel t =
      ({ st with
         timers := Function.update st.timers e ⟨0, 0⟩
         queue := st.queue.erase e }, Status.success) := by
  have hsig : ¬((st.attrs e).signature ≠ EVENT_SIGNATURE) := not_not_intro h1
  have hcond : ¬(timerCancel < 0 ∨ timerCancel > timerRelative
      ∨ (st.attrs e).evType &&& EVT_TIMER = 0) := by
    push_neg
    exact ⟨by decide, by decide, h2⟩
  by_cases hq : e ∈ st.queue
  · simp [CoreSetTimer, hsig, hcond, hq]
  · simp [CoreSetTimer, hsig, hcond, hq, List.erase_of_not_mem hq]

theorem setTimer_arm {st : TState} {e : EventId} {ty : Int} (t : Nat)
    (h1 : (st.attrs e).signature = EVENT_SIGNATURE)
    (h2 : (st.attrs e).evType &&& EVT_TIMER ≠ 0)
    (h3 : ty = timerPeriodic ∨ ty = timerRelative) :
    CoreSetTimer st (some e) ty t =
      ({ st with
         timers := Function.update st.timers e
           ⟨(st.systemTime + t) % U64, if ty = timerPeriodic then t else 0⟩
         queue := CoreInsertEventTimer
           (Function.update st.timers e
             ⟨(st.systemTime + t) % U64, if ty = timerPeriodic then t else 0⟩)
           e (st.queue.erase e)
         checkSignaled := if t = 0 then true else st.checkSignaled }, Status.success) := by
  have hsig : ¬((st.attrs e).signature ≠ EVENT_SIGNATURE) := not_not_intro h1
  have hcond : ¬(ty < 0 ∨ ty > timerRelative ∨ (st.attrs e).evType &&& EVT_TIMER = 0) := by
    push_neg
    rcases h3 with rfl | rfl
    · exact ⟨by decide, by decide, h2⟩
    · exact ⟨by decide, by decide, h2⟩
  by_cases hq : e ∈ st.queue <;> by_cases ht : t = 0 <;>
    rcases h3 with rfl | rfl <;>
      simp [CoreSetTimer, hsig, hcond, hq, ht, h2, Function.update_idem,
        List.erase_of_not_mem, timerPeriodic, timerCancel, timerRelative]

/-! ## Helper lemmas: the expiry-processor step and loop -/

theorem loop_succ_none {now : Nat} {st : TState} (fuel : Nat)
    (h : checkTimersStep now st = none) :
    checkTimersLoop (fuel + 1) now st = st := by
  simp [checkTimersLoop, h]

theorem loop_succ_some {now : Nat} {st st' : TState} (fuel : Nat)
    (h : checkTimersStep now st = some st') :
    checkTimersLoop (fuel + 1) now st = checkTimersLoop fuel now st' := by
  simp [checkTimersLoop, h]

theorem step_none_of_empty {now : Nat} {st : TState} (hq : st.queue = []) :
    checkTimersStep now st = none := by
  simp [checkTimersStep, hq]

theorem step_none_of_notdue {now : Nat} {st : TState} {e : EventId} {rest : List EventId}
    (hq : st.queue = e :: rest) (h : now < (st.timers e).triggerTime) :
    checkTimersStep now st = none := by
  simp [checkTimersStep, hq, h]

theorem step_oneShot {now : Nat} {st : TState} {e : EventId} {rest : List EventId}
    (hq : st.queue = e :: rest) (hdue : (st.timers e).triggerTime ≤ now)
    (hp : (st.timers e).period = 0) :
    checkTimersStep now st =
      some { st with
             queue := rest
             signaled := st.signaled ++ [(e, (st.timers e).triggerTime)] } := by
  simp [checkTimersStep, hq, Nat.not_lt.2 hdue, hp]

theorem step_periodic_clamp {now : Nat} {st : TState} {e : EventId} {rest : List EventId}
    (hq : st.queue = e :: rest) (hdue : (st.timers e).triggerTime ≤ now)
    (hp : (st.timers e).period ≠ 0)
    (hc : ((st.timers e).triggerTime + (st.timers e).period) % U64 ≤ now) :
    checkTimersStep now st =
      some { st with
             timers := Function.update st.timers e ⟨now, (st.timers e).period⟩
             checkSignaled := true
             queue := CoreInsertEventTimer
               (Function.update st.timers e ⟨now, (st.timers e).period⟩) e rest
             signaled := st.signaled ++ [(e, (st.timers e).triggerTime)] } := by
  simp [checkTimersStep, hq, Nat.not_lt.2 hdue, hp, hc]

theorem step_periodic_ahead {now : Nat} {st : TState} {e : EventId} {rest : List EventId}
    (hq : st.queue = e :: rest) (hdue : (st.timers e).triggerTime ≤ now)
    (hp : (st.timers e).period ≠ 0)
    (hc : ¬ ((st.timers e).triggerTime + (st.timers e).period) % U64 ≤ now) :
    checkTimersStep now st =
      some { st with
             timers := Function.update st.timers e
               ⟨((st.timers e).triggerTime + (st.timers e).period) % U64, (st.timers e).period⟩
             queue := CoreInsertEventTimer
               (Function.update st.timers e
                 ⟨((st.timers e).triggerTime + (st.timers e).period) % U64,
                  (st.timers e).period⟩) e rest
             signaled := st.signaled ++ [(e, (st.timers e).triggerTime)] } := by
  simp [checkTimersStep, hq, Nat.not_lt.2 hdue, hp, hc]

theorem step_elim {now : Nat} {st st' : TState} (h : checkTimersStep now st = some st')
    {motive : Prop}
    (caseOne : ∀ e rest, st.queue = e :: rest → (st.timers e).triggerTime ≤ now →
      (st.timers e).period = 0 →
      st' = { st with
              queue := rest
              signaled := st.signaled ++ [(e, (st.timers e).triggerTime)] } → motive)
    (caseClamp : ∀ e rest, st.queue = e :: rest → (st.timers e).triggerTime ≤ now →
      (st.timers e).period ≠ 0 →
      ((st.timers e).triggerTime + (st.timers e).period) % U64 ≤ now →
      st' = { st with
              timers := Function.update st.timers e ⟨now, (st.timers e).period⟩
              checkSignaled := true
              queue := CoreInsertEventTimer
                (Function.update st.timers e ⟨now, (st.timers e).period⟩) e rest
              signaled := st.signaled ++ [(e, (st.timers e).triggerTime)] } → motive)
    (caseAhead : ∀ e rest, st.queue = e :: rest → (st.timers e).triggerTime ≤ now →
      (st.timers e).period ≠ 0 →
      ¬ ((st.timers e).triggerTime + (st.timers e).period) % U64 ≤ now →
      st' = { st with
              timers := Function.update st.timers e
                ⟨((st.timers e).triggerTime + (st.timers e).period) % U64,
                 (st.timers e).period⟩
              queue := CoreInsertEventTimer
                (Function.update st.timers e
                  ⟨((st.timers e).triggerTime + (st.timers e).period) % U64,
                   (st.timers e).period⟩) e rest
              signaled := st.signaled ++ [(e, (st.timers e).triggerTime)] } → motive) :
    motive := by
  rcases hq : st.queue with _ | ⟨e, rest⟩
  · rw [step_none_of_empty hq] at h
    cases h
  · by_cases hlt : now < (st.timers e).triggerTime
    · rw [step_none_of_notdue hq hlt] at h
      cases h
    · have hdue : (st.timers e).triggerTime ≤ now := Nat.le_of_not_lt hlt
      by_cases hp : (st.timers e).period = 0
      · rw [step_oneShot hq hdue hp] at h
        exact caseOne e rest hq hdue hp (Option.some.inj h).symm
      · by_cases hc : ((st.timers e).triggerTime + (st.timers e).period) % U64 ≤ now
        · rw [step_periodic_clamp hq hdue hp hc] at h
          exact caseClamp e rest hq hdue hp hc (Option.some.inj h).symm
        · rw [step_periodic_ahead hq hdue hp hc] at h
          exact caseAhead e rest hq hdue hp hc (Option.some.inj h).symm

/-! ## Helper lemmas: queue invariants under the operations -/

theorem erase_map_trigger_eq {st : TState} {e : EventId} (tm : EventId → TimerData)
    (hnd : st.queue.Nodup) (hagree : ∀ x, x ≠ e → tm x = st.timers x) :
    ((st.queue.erase e).map fun x => (tm x).triggerTime)
      = ((st.queue.erase e).map fun x => (st.timers x).triggerTime) := by
  refine List.map_congr_left ?_
  intro x hx
  have hne : x ≠ e := ((List.Nodup.mem_erase_iff hnd).1 hx).1
  rw [hagree x hne]

theorem erase_sorted {st : TState} (e : EventId) (hs : SortedQ st) :
    ((st.queue.erase e).map fun x => (st.timers x).triggerTime).Pairwise (· ≤ ·) :=
  hs.sublist ((List.erase_sublist e st.queue).map _)

theorem setTimer_nodup (st : TState) (ue : Option EventId) (ty : Int) (t : Nat)
    (hnd : st.queue.Nodup) : (CoreSetTimer st ue ty t).1.queue.Nodup := by
  rcases ue with _ | e
  · exact hnd
  · by_cases h1 : (st.attrs e).signature = EVENT_SIGNATURE
    · by_cases hk : ty < 0 ∨ ty > timerRelative ∨ (st.attrs e).evType &&& EVT_TIMER = 0
      · rw [setTimer_invalid_kind t h1 hk]
        exact hnd
      · push_neg at hk
        obtain ⟨hk0, hk2, hcap⟩ := hk
        by_cases hc : ty = timerCancel
        · subst hc
          rw [setTimer_cancel t h1 hcap]
          exact hnd.erase e
        · have h3 : ty = timerPeriodic ∨ ty = timerRelative := by
            simp only [timerCancel] at hc
            simp only [timerPeriodic, timerRelative] at *
            omega
          rw [setTimer_arm t h1 hcap h3]
          exact insertTimer_nodup (hnd.erase e) hnd.not_mem_erase
    · rw [setTimer_invalid_sig ty t h1]
      exact hnd

theorem setTimer_sorted (st : TState) (ue : Option EventId) (ty : Int) (t : Nat)
    (hnd : st.queue.Nodup) (hs : SortedQ st) : SortedQ (CoreSetTimer st ue ty t).1 := by
  rcases ue with _ | e
  · exact hs
  · by_cases h1 : (st.attrs e).signature = EVENT_SIGNATURE
    · by_cases hk : ty < 0 ∨ ty > timerRelative ∨ (st.attrs e).evType &&& EVT_TIMER = 0
      · rw [setTimer_invalid_kind t h1 hk]
        exact hs
      · push_neg at hk
        obtain ⟨hk0, hk2, hcap⟩ := hk
        by_cases hc : ty = timerCancel
        · subst hc
          rw [setTimer_cancel t h1 hcap]
          unfold SortedQ
          dsimp only
          rw [erase_map_trigger_eq _ hnd (fun x hx => Function.update_noteq hx _ _)]
          exact erase_sorted e hs
        · have h3 : ty = timerPeriodic ∨ ty = timerRelative := by
            simp only [timerCancel] at hc
            simp only [timerPeriodic, timerRelative] at *
            omega
          rw [setTimer_arm t h1 hcap h3]
          unfold SortedQ
          dsimp only
          apply insertTimer_sorted
          rw [erase_map_trigger_eq _ hnd (fun x hx => Function.update_noteq hx _ _)]
          exact erase_sorted e hs
    · rw [setTimer_invalid_sig ty t h1]
      exact hs

theorem step_nodup {now : Nat} {st st' : TState} (h : checkTimersStep now st = some st')
    (hnd : st.queue.Nodup) : st'.queue.Nodup := by
  refine step_elim h ?_ ?_ ?_
  · intro e rest hq _ _ hst
    subst hst
    rw [hq] at hnd
    exact hnd.of_cons
  · intro e rest hq _ _ _ hst
    subst hst
    rw [hq, List.nodup_cons] at hnd
    exact insertTimer_nodup hnd.2 hnd.1
  · intro e rest hq _ _ _ hst
    subst hst
    rw [hq, List.nodup_cons] at hnd
    exact insertTimer_nodup hnd.2 hnd.1

theorem loop_nodup {now : Nat} (fuel : Nat) (st : TState) (hnd : st.queue.Nodup) :
    (checkTimersLoop fuel now st).queue.Nodup := by
  induction fuel generalizing st with
  | zero => exact hnd
  | succ n ih =>
    rcases hs : checkTimersStep now st with _ | st'
    · rw [loop_succ_none n hs]
      exact hnd
    · rw [loop_succ_some n hs]
      exact ih st' (step_nodup hs hnd)

/-! ## Helper lemma: the drain loop on queues of one-shot timers -/

theorem loop_oneShot {now : Nat} : ∀ (fuel : Nat) (st : TState),
    (∀ x ∈ st.queue, (st.timers x).period = 0) → st.queue.length ≤ fuel →
    checkTimersLoop fuel now st =
      { st with
        queue := st.queue.dropWhile fun x => (st.timers x).triggerTime ≤ now
        signaled := st.signaled ++
          (st.queue.takeWhile fun x => (st.timers x).triggerTime ≤ now).map
            fun x => (x, (st.timers x).triggerTime) } := by
  intro fuel
  induction fuel with
  | zero =>
    intro st hper hlen
    have hq : st.queue = [] := List.eq_nil_of_length_eq_zero (Nat.le_zero.1 hlen)
    rcases st with ⟨A, T, TM, Q, C, G⟩
    simp only at hq
    subst hq
    simp [checkTimersLoop]
  | succ n ih =>
    intro st hper hlen
    rcases hq : st.queue with _ | ⟨e, rest⟩
    · rw [loop_succ_none n (step_none_of_empty hq)]
      rcases st with ⟨A, T, TM, Q, C, G⟩
      simp only at hq
      subst hq
      simp
    · by_cases hdue : (st.timers e).triggerTime ≤ now
      · have hp : (st.timers e).period = 0 := hper e (hq ▸ List.mem_cons_self e rest)
        rw [loop_succ_some n (step_oneShot hq hdue hp)]
        have hrest_per : ∀ x ∈ rest, (st.timers x).period = 0 := by
          intro x hx
          exact hper x (by rw [hq]; exact List.mem_cons_of_mem e hx)
        have hrest_len : rest.length ≤ n := by
          rw [hq] at hlen
          exact Nat.succ_le_succ_iff.mp hlen
        rw [ih _ hrest_per hrest_len]
        rcases st with ⟨A, T, TM, Q, C, G⟩
        simp only at hq hdue hp ⊢
        subst hq
        simp [List.dropWhile_cons, List.takeWhile_cons, hdue, hp]
      · have hlt : now < (st.timers e).triggerTime := Nat.not_le.mp hdue
        rw [loop_succ_none n (step_none_of_notdue hq hlt)]
        rcases st with ⟨A, T, TM, Q, C, G⟩
        simp only at hq hdue ⊢
        subst hq
        simp [List.dropWhile_cons, List.takeWhile_cons, hdue]

/-! ## Helper lemmas: deadlines logged for one event are strictly increasing -/

theorem deadlinesFor_append (y : EventId) (l1 l2 : List (EventId × Nat)) :
    deadlinesFor y (l1 ++ l2) = deadlinesFor y l1 ++ deadlinesFor y l2 :=
  List.filterMap_append l1 l2 _

theorem deadlinesFor_single_self (y : EventId) (d : Nat) :
    deadlinesFor y [(y, d)] = [d] := by
  simp [deadlinesFor]

theorem deadlinesFor_single_ne {e y : EventId} (d : Nat) (h : e ≠ y) :
    deadlinesFor y [(e, d)] = [] := by
  simp [deadlinesFor, h]

theorem append_log_pairwise {st : TState} {e : EventId}
    (he : e ∈ st.queue)
    (hpw : ∀ y, (deadlinesFor y st.signaled).Pairwise (· < ·))
    (hbound : ∀ x ∈ st.queue, ∀ d ∈ deadlinesFor x st.signaled,
      d < (st.timers x).triggerTime) :
    ∀ y, (deadlinesFor y (st.signaled ++ [(e, (st.timers e).triggerTime)])).Pairwise
      (· < ·) := by
  intro y
  rw [deadlinesFor_append]
  by_cases hey : e = y
  · subst hey
    rw [deadlinesFor_single_self]
    refine List.pairwise_append.2 ⟨hpw e, List.pairwise_singleton _ _, ?_⟩
    intro a ha b hb
    rw [List.mem_singleton] at hb
    subst hb
    exact hbound e he a ha
  · rw [deadlinesFor_single_ne _ hey, List.append_nil]
    exact hpw y

theorem step_c1inv {now : Nat} {st st' : TState} (h : checkTimersStep now st = some st')
    (hinv : C1Inv now st) : C1Inv now st' := by
  obtain ⟨hnd, hpw, hbound, hov⟩ := hinv
  refine step_elim h ?_ ?_ ?_
  · -- one-shot head: removed, not reinserted
    intro e rest hq hdue hp hst
    subst hst
    have he : e ∈ st.queue := hq ▸ List.mem_cons_self e rest
    rw [hq, List.nodup_cons] at hnd
    refine ⟨hnd.2, append_log_pairwise he hpw hbound, ?_, ?_⟩
    · intro x hx d hd
      simp only at hx hd ⊢
      have hxe : e ≠ x := fun heq => hnd.1 (by subst heq; exact hx)
      rw [deadlinesFor_append, deadlinesFor_single_ne _ hxe, List.append_nil] at hd
      exact hbound x (hq ▸ List.mem_cons_of_mem e hx) d hd
    · intro x hx
      simp only at hx ⊢
      exact hov x (hq ▸ List.mem_cons_of_mem e hx)
  · -- periodic head, clamped to now
    intro e rest hq hdue hp hc hst
    subst hst
    have he : e ∈ st.queue := hq ▸ List.mem_cons_self e rest
    have hovE := hov e he
    have hsum : (st.timers e).triggerTime + (st.timers e).period < U64 :=
      Nat.lt_of_le_of_lt (Nat.add_le_add_right hdue _) hovE
    rw [Nat.mod_eq_of_lt hsum] at hc
    have hTnow : (st.timers e).triggerTime < now := by
      have hp1 : 1 ≤ (st.timers e).period := Nat.one_le_iff_ne_zero.2 hp
      omega
    rw [hq, List.nodup_cons] at hnd
    refine ⟨?_, append_log_pairwise he hpw hbound, ?_, ?_⟩
    · exact insertTimer_nodup hnd.2 hnd.1
    · intro x hx d hd
      simp only at hx hd ⊢
      rcases mem_insertTimer.1 hx with rfl | hx'
      · rw [Function.update_same]
        rw [deadlinesFor_append] at hd
        rcases List.mem_append.1 hd with hd | hd
        · exact Nat.lt_trans (hbound x he d hd) hTnow
        · rw [deadlinesFor_single_self, List.mem_singleton] at hd
          subst hd
          exact hTnow
      · have hxe : x ≠ e := fun heq => hnd.1 (by subst heq; exact hx')
        rw [Function.update_noteq hxe]
        rw [deadlinesFor_append, deadlinesFor_single_ne _ (Ne.symm hxe),
          List.append_nil] at hd
        exact hbound x (hq ▸ List.mem_cons_of_mem e hx') d hd
    · intro x hx
      simp only at hx ⊢
      rcases mem_insertTimer.1 hx with rfl | hx'
      · rw [Function.update_same]
        exact hovE
      · have hxe : x ≠ e := fun heq => hnd.1 (by subst heq; exact hx')
        rw [Function.update_noteq hxe]
        exact hov x (hq ▸ List.mem_cons_of_mem e hx')
  · -- periodic head, new deadline still ahead of now
    intro e rest hq hdue hp hc hst
    subst hst
    have he : e ∈ st.queue := hq ▸ List.mem_cons_self e rest
    have hnow : now < ((st.timers e).triggerTime + (st.timers e).period) % U64 :=
      Nat.not_le.mp hc
    rw [hq, List.nodup_cons] at hnd
    refine ⟨?_, append_log_pairwise he hpw hbound, ?_, ?_⟩
    · exact insertTimer_nodup hnd.2 hnd.1
    · intro x hx d hd
      simp only at hx hd ⊢
      rcases mem_insertTimer.1 hx with rfl | hx'
      · rw [Function.update_same]
        rw [deadlinesFor_append] at hd
        rcases List.mem_append.1 hd with hd | hd
        · exact Nat.lt_of_lt_of_le (hbound x he d hd)
            (Nat.le_trans hdue (Nat.le_of_lt hnow))
        · rw [deadlinesFor_single_self, List.mem_singleton] at hd
          subst hd
          exact Nat.lt_of_le_of_lt hdue hnow
      · have hxe : x ≠ e := fun heq => hnd.1 (by subst heq; exact hx')
        rw [Function.update_noteq hxe]
        rw [deadlinesFor_append, deadlinesFor_single_ne _ (Ne.symm hxe),
          List.append_nil] at hd
        exact hbound x (hq ▸ List.mem_cons_of_mem e hx') d hd
    · intro x hx
      simp only at hx ⊢
      rcases mem_insertTimer.1 hx with rfl | hx'
      · rw [Function.update_same]
        exact hov x he
      · have hxe : x ≠ e := fun heq => hnd.1 (by subst heq; exact hx')
        rw [Function.update_noteq hxe]
        exact hov x (hq ▸ List.mem_cons_of_mem e hx')

theorem loop_c1inv {now : Nat} (fuel : Nat) (st : TState) (hinv : C1Inv now st) :
    C1Inv now (checkTimersLoop fuel now st) := by
  induction fuel generalizing st with
  | zero => exact hinv
  | succ n ih =>
    rcases hs : checkTimersStep now st with _ | st'
    · rw [loop_succ_none n hs]
      exact hinv
    · rw [loop_succ_some n hs]
      exact ih st' (step_c1inv hs hinv)

/-! ## Helper lemmas: the tick path and the clock -/

theorem tick_systemTime (st : TState) (d : Nat) :
    (CoreTimerTick st d).systemTime = (st.systemTime + d) % U64 := by
  rcases hq : st.queue with _ | ⟨e, rest⟩ <;>
    simp [CoreTimerTick, hq] <;> split <;> rfl

theorem tick_queue (st : TState) (d : Nat) :
    (CoreTimerTick st d).queue = st.queue := by
  rcases hq : st.queue with _ | ⟨e, rest⟩ <;>
    simp [CoreTimerTick, hq] <;> split <;> simp [hq]

theorem tick_timers (st : TState) (d : Nat) :
    (CoreTimerTick st d).timers = st.timers := by
  rcases hq : st.queue with _ | ⟨e, rest⟩ <;>
    simp [CoreTimerTick, hq] <;> split <;> rfl

theorem tick_signaled (st : TState) (d : Nat) :
    (CoreTimerTick st d).signaled = st.signaled := by
  rcases hq : st.queue with _ | ⟨e, rest⟩ <;>
    simp [CoreTimerTick, hq] <;> split <;> rfl

theorem tick_attrs (st : TState) (d : Nat) :
    (CoreTimerTick st d).attrs = st.attrs := by
  rcases hq : st.queue with _ | ⟨e, rest⟩ <;>
    simp [CoreTimerTick, hq] <;> split <;> rfl

theorem runTicks_systemTime (ds : List Nat) (st : TState)
    (h : st.systemTime + ds.sum < U64) :
    (runTicks st ds).systemTime = st.systemTime + ds.sum := by
  induction ds generalizing st with
  | nil => simp [runTicks]
  | cons d ds ih =>
    have hd : st.systemTime + d < U64 := by
      simp [List.sum_cons] at h
      omega
    have h1 : (CoreTimerTick st d).systemTime + ds.sum < U64 := by
      rw [tick_systemTime, Nat.mod_eq_of_lt hd]
      simp [List.sum_cons] at h
      omega
    calc (runTicks st (d :: ds)).systemTime
        = (runTicks (CoreTimerTick st d) ds).systemTime := rfl
      _ = (CoreTimerTick st d).systemTime + ds.sum := ih _ h1
      _ = st.systemTime + (d :: ds).sum := by
          rw [tick_systemTime, Nat.mod_eq_of_lt hd, List.sum_cons]
          omega

/-! ## Helper lemmas: the drain loop never re-reads the live clock -/

theorem step_systemTime_set (now T : Nat) (st : TState) :
    checkTimersStep now { st with systemTime := T }
      = Option.map (fun s => { s with systemTime := T }) (checkTimersStep now st) := by
  rcases st with ⟨A, T0, TM, Q, C, G⟩
  rcases Q with _ | ⟨e, rest⟩
  · rfl
  · by_cases hlt : now < (TM e).triggerTime
    · simp [checkTimersStep, hlt]
    · by_cases hp : (TM e).period = 0
      · simp [checkTimersStep, hlt, hp]
      · by_cases hc : ((TM e).triggerTime + (TM e).period) % U64 ≤ now
        · simp [checkTimersStep, hlt, hp, hc]
        · simp [checkTimersStep, hlt, hp, hc]

theorem loop_systemTime_set (fuel now T : Nat) (st : TState) :
    checkTimersLoop fuel now { st with systemTime := T }
      = { checkTimersLoop fuel now st with systemTime := T } := by
  induction fuel generalizing st with
  | zero => rfl
  | succ n ih =>
    rcases hs : checkTimersStep now st with _ | st'
    · have hs' : checkTimersStep now ({ st with systemTime := T } : TState) = none := by
        rw [step_systemTime_set, hs]
        rfl
      rw [loop_succ_none n hs, loop_succ_none n hs']
    · have hs' : checkTimersStep now ({ st with systemTime := T } : TState)
          = some { st' with systemTime := T } := by
        rw [step_systemTime_set, hs]
        rfl
      rw [loop_succ_some n hs, loop_succ_some n hs', ih st']

/-! ## Helper lemmas: counting signals in a drained one-shot queue -/

theorem takeWhile_append_cons (p : EventId → Bool) (pre : List EventId) (e : EventId)
    (post : List EventId) (hpre : ∀ x ∈ pre, p x = true) (he : p e = true) :
    (pre ++ e :: post).takeWhile p = pre ++ e :: post.takeWhile p := by
  induction pre with
  | nil => simp [List.takeWhile_cons, he]
  | cons a as ih =>
    have ha : p a = true := hpre a (List.mem_cons_self a as)
    simp only [List.cons_append, List.takeWhile_cons, ha]
    rw [ih (fun x hx => hpre x (List.mem_cons_of_mem a hx))]
    simp

theorem dropWhile_append_cons (p : EventId → Bool) (pre : List EventId) (e : EventId)
    (post : List EventId) (hpre : ∀ x ∈ pre, p x = true) (he : p e = true) :
    (pre ++ e :: post).dropWhile p = post.dropWhile p := by
  induction pre with
  | nil => simp [List.dropWhile_cons, he]
  | cons a as ih =>
    have ha : p a = true := hpre a (List.mem_cons_self a as)
    simp only [List.cons_append, List.dropWhile_cons, ha]
    exact ih (fun x hx => hpre x (List.mem_cons_of_mem a hx))

/-- After arming `e` into a duplicate-free all-one-shot queue, a drain pass
whose snapshot is at or past the stored deadline of `e` signals `e` exactly
once and leaves it out of the queue. -/
theorem armed_drain {now fuel : Nat} {st1 : TState} {q : List EventId}
    {tm2 : EventId → TimerData} {e : EventId}
    (hq1 : st1.queue = CoreInsertEventTimer tm2 e q)
    (htm : st1.timers = tm2)
    (hsig : st1.signaled = [])
    (hnd : q.Nodup) (hemem : e ∉ q)
    (hper : ∀ x, x = e ∨ x ∈ q → (tm2 x).period = 0)
    (hdue : (tm2 e).triggerTime ≤ now)
    (hlen : q.length + 1 ≤ fuel) :
    ((checkTimersLoop fuel now st1).signaled.map Prod.fst).count e = 1
    ∧ e ∉ (checkTimersLoop fuel now st1).queue := by
  have hper' : ∀ x ∈ st1.queue, (st1.timers x).period = 0 := by
    rw [hq1, htm]
    intro x hx
    exact hper x (mem_insertTimer.1 hx)
  have hlen' : st1.queue.length ≤ fuel := by
    rw [hq1, (insertTimer_perm tm2 e q).length_eq]
    simpa using hlen
  rw [loop_oneShot fuel st1 hper' hlen']
  have hq1' : st1.queue
      = q.takeWhile (fun x => (tm2 x).triggerTime ≤ (tm2 e).triggerTime)
        ++ e :: q.dropWhile (fun x => (tm2 x).triggerTime ≤ (tm2 e).triggerTime) := by
    rw [hq1, insertTimer_eq]
  have hpreP : ∀ z ∈ q.takeWhile (fun x => (tm2 x).triggerTime ≤ (tm2 e).triggerTime),
      (fun x => decide ((st1.timers x).triggerTime ≤ now)) z = true := by
    intro z hz
    have hpz := List.mem_takeWhile_imp hz
    have hze : (tm2 z).triggerTime ≤ (tm2 e).triggerTime := of_decide_eq_true hpz
    rw [htm]
    exact decide_eq_true (Nat.le_trans hze hdue)
  have heP : (fun x => decide ((st1.timers x).triggerTime ≤ now)) e = true := by
    rw [htm]
    exact decide_eq_true hdue
  have htake : st1.queue.takeWhile (fun x => (st1.timers x).triggerTime ≤ now)
      = q.takeWhile (fun x => (tm2 x).triggerTime ≤ (tm2 e).triggerTime)
        ++ e :: ((q.dropWhile (fun x => (tm2 x).triggerTime ≤ (tm2 e).triggerTime)).takeWhile
          (fun x => (st1.timers x).triggerTime ≤ now)) := by
    rw [hq1']
    exact takeWhile_append_cons _ _ e _ hpreP heP
  have hdrop : st1.queue.dropWhile (fun x => (st1.timers x).triggerTime ≤ now)
      = (q.dropWhile (fun x => (tm2 x).triggerTime ≤ (tm2 e).triggerTime)).dropWhile
          (fun x => (st1.timers x).triggerTime ≤ now) := by
    rw [hq1']
    exact dropWhile_append_cons _ _ e _ hpreP heP
  constructor
  · show ((st1.signaled
        ++ (st1.queue.takeWhile (fun x => (st1.timers x).triggerTime ≤ now)).map
          (fun x => (x, (st1.timers x).triggerTime))).map Prod.fst).count e = 1
    have h1 : (q.takeWhile (fun x => (tm2 x).triggerTime ≤ (tm2 e).triggerTime)).count e
        = 0 := by
      rw [List.count_eq_zero]
      intro hmem
      exact hemem ((List.takeWhile_sublist _).subset hmem)
    have h2 : ((q.dropWhile (fun x => (tm2 x).triggerTime ≤ (tm2 e).triggerTime)).takeWhile
        (fun x => (st1.timers x).triggerTime ≤ now)).count e = 0 := by
      rw [List.count_eq_zero]
      intro hmem
      exact hemem ((List.dropWhile_sublist _).subset
        ((List.takeWhile_sublist _).subset hmem))
    rw [htake, hsig]
    simp only [List.nil_append, List.map_map]
    have hid : (Prod.fst ∘ fun x => (x, (st1.timers x).triggerTime)) = id := rfl
    rw [hid, List.map_id, List.count_append, h1, List.count_cons, h2]
    simp
  · show e ∉ st1.queue.dropWhile (fun x => (st1.timers x).triggerTime ≤ now)
    rw [hdrop]
    intro hmem
    exact hemem ((List.dropWhile_sublist _).subset
      ((List.dropWhile_sublist _).subset hmem))

/-! ## Helper lemmas: classification of `CoreSetTimer` outcomes -/

theorem ty_cases {ty : Int} (h0 : 0 ≤ ty) (h2 : ty ≤ timerRelative)
    (hnc : ty ≠ timerCancel) : ty = timerPeriodic ∨ ty = timerRelative := by
  simp only [timerCancel, timerPeriodic, timerRelative] at *
  omega

theorem setTimer_success {st : TState} {e : EventId} {ty : Int} (t : Nat)
    (h1 : (st.attrs e).signature = EVENT_SIGNATURE)
    (h2 : (st.attrs e).evType &&& EVT_TIMER ≠ 0)
    (h0 : 0 ≤ ty) (hle : ty ≤ timerRelative) :
    (CoreSetTimer st (some e) ty t).2 = Status.success := by
  by_cases hc : ty = timerCancel
  · subst hc
    rw [setTimer_cancel t h1 h2]
  · rw [setTimer_arm t h1 h2 (ty_cases h0 hle hc)]

theorem setTimer_invalid_state {st : TState} {ue : Option EventId} {ty : Int} {t : Nat}
    (h : (CoreSetTimer st ue ty t).2 = Status.invalidParameter) :
    (CoreSetTimer st ue ty t).1 = st := by
  rcases ue with _ | e
  · rfl
  · by_cases h1 : (st.attrs e).signature = EVENT_SIGNATURE
    · by_cases hk : ty < 0 ∨ ty > timerRelative ∨ (st.attrs e).evType &&& EVT_TIMER = 0
      · rw [setTimer_invalid_kind t h1 hk]
      · push_neg at hk
        rw [setTimer_success t h1 hk.2.2 hk.1 hk.2.1] at h
        cases h
    · rw [setTimer_invalid_sig ty t h1]

theorem runSetTimers_inv (calls : List (Option EventId × Int × Nat)) (st : TState)
    (h : st.queue.Nodup ∧ SortedQ st) :
    (runSetTimers st calls).queue.Nodup ∧ SortedQ (runSetTimers st calls) := by
  induction calls generalizing st with
  | nil => exact h
  | cons c cs ih =>
    exact ih _ ⟨setTimer_nodup st c.1 c.2.1 c.2.2 h.1,
      setTimer_sorted st c.1 c.2.1 c.2.2 h.1 h.2⟩

theorem mem_takeWhile_of_sorted {tm : EventId → TimerData} {e : EventId} :
    ∀ {l : List EventId}, ((l.map fun x => (tm x).triggerTime).Pairwise (· ≤ ·)) →
      ∀ x ∈ l, (tm x).triggerTime ≤ (tm e).triggerTime →
        x ∈ l.takeWhile (fun z => (tm z).triggerTime ≤ (tm e).triggerTime) := by
  intro l
  induction l with
  | nil =>
    intro _ x hx
    cases hx
  | cons y ys ih =>
    intro hs x hx hxe
    rw [List.map_cons, List.pairwise_cons] at hs
    rcases List.mem_cons.1 hx with rfl | hx'
    · rw [List.takeWhile_cons, if_pos (decide_eq_true hxe)]
      exact List.mem_cons_self _ _
    · have hyx : (tm y).triggerTime ≤ (tm x).triggerTime :=
        hs.1 _ (List.mem_map_of_mem _ hx')
      have hy : (tm y).triggerTime ≤ (tm e).triggerTime := Nat.le_trans hyx hxe
      rw [List.takeWhile_cons, if_pos (decide_eq_true hy)]
      exact List.mem_cons_of_mem y (ih hs.2 x hx' hxe)

/-! ## Claims -/

/-- C2 counterexample: the claim says the Queue section's priority level is
strictly higher than the Clock section's; in the code `mEfiTimerLock` (queue)
is created at `TPL_HIGH_LEVEL - 1` and `mEfiSystemTimeLock` (clock) at
`TPL_HIGH_LEVEL`, so the queue lock's level is not higher. -/
theorem claim2_priority_counterexample :
    ¬ lockTpl LockId.systemTimeLock < lockTpl LockId.timerLock := by
  decide

/-- C2 (amended): the Clock section's priority level is strictly higher than
the Queue section's, and every operation needing both sections acquires the
Queue section first with the Clock section acquired nested inside it, while
the tick path touches only the Clock section. -/
theorem claim2_lock_order :
    lockTpl LockId.timerLock < lockTpl LockId.systemTimeLock
    ∧ coreCheckTimersTrace
        = [LockEvent.acq LockId.timerLock, LockEvent.acq LockId.systemTimeLock,
           LockEvent.rel LockId.systemTimeLock, LockEvent.rel LockId.timerLock]
    ∧ acqOnlyWhileHolding LockId.systemTimeLock LockId.timerLock
        coreCheckTimersTrace [] = true
    ∧ coreSetTimerTrace true false
        = [LockEvent.acq LockId.timerLock, LockEvent.acq LockId.systemTimeLock,
           LockEvent.rel LockId.systemTimeLock, LockEvent.rel LockId.timerLock]
    ∧ acqOnlyWhileHolding LockId.systemTimeLock LockId.timerLock
        (coreSetTimerTrace true false) [] = true
    ∧ coreTimerTickTrace = currentSystemTimeTrace := by
  decide

/-- C4 counterexample: a non-null event whose type mask carries `EVT_TIMER`
and whose requested kind is `TimerRelative` is still rejected with
`EFI_INVALID_PARAMETER` when its signature is not `EVENT_SIGNATURE`, so the
claimed three-way "if and only if" fails. -/
theorem claim4_signature_counterexample :
    (CoreSetTimer (initState attrsBad) (some 0) timerRelative 5).2
      = Status.invalidParameter
    ∧ some (0 : EventId) ≠ none
    ∧ ((initState attrsBad).attrs 0).evType &&& EVT_TIMER ≠ 0
    ∧ ¬ (timerRelative < 0 ∨ timerRelative > timerRelative) := by
  decide

/-- C4 (amended): `CoreSetTimer` returns `EFI_INVALID_PARAMETER` if and only
if the event is null, its signature is not a valid event signature, its type
mask lacks the timer capability, or the kind is outside
{Cancel, Periodic, Relative}; in every error case the state is unchanged, and
in every other case it returns `EFI_SUCCESS`. -/
theorem claim4_invalid_parameter_iff (st : TState) (ue : Option EventId) (ty : Int)
    (t : Nat) :
    ((CoreSetTimer st ue ty t).2 = Status.invalidParameter
      ↔ ue = none ∨ ∃ e, ue = some e
          ∧ ((st.attrs e).signature ≠ EVENT_SIGNATURE
             ∨ ty < 0 ∨ ty > timerRelative
             ∨ (st.attrs e).evType &&& EVT_TIMER = 0))
    ∧ ((CoreSetTimer st ue ty t).2 = Status.invalidParameter
        → (CoreSetTimer st ue ty t).1 = st)
    ∧ ((CoreSetTimer st ue ty t).2 ≠ Status.invalidParameter
        → (CoreSetTimer st ue ty t).2 = Status.success) := by
  refine ⟨?_, fun h => setTimer_invalid_state h, ?_⟩
  · constructor
    · intro h
      rcases ue with _ | e
      · exact Or.inl rfl
      · refine Or.inr ⟨e, rfl, ?_⟩
        by_cases h1 : (st.attrs e).signature = EVENT_SIGNATURE
        · by_cases hk : ty < 0 ∨ ty > timerRelative ∨ (st.attrs e).evType &&& EVT_TIMER = 0
          · rcases hk with hk | hk | hk
            · exact Or.inr (Or.inl hk)
            · exact Or.inr (Or.inr (Or.inl hk))
            · exact Or.inr (Or.inr (Or.inr hk))
          · push_neg at hk
            rw [setTimer_success t h1 hk.2.2 hk.1 hk.2.1] at h
            cases h
        · exact Or.inl h1
    · intro h
      rcases h with h | ⟨e, rfl, h⟩
      · subst h
        rfl
      · by_cases h1 : (st.attrs e).signature = EVENT_SIGNATURE
        · have hk : ty < 0 ∨ ty > timerRelative ∨ (st.attrs e).evType &&& EVT_TIMER = 0 := by
            rcases h with h | h | h | h
            · exact absurd h1 h
            · exact Or.inl h
            · exact Or.inr (Or.inl h)
            · exact Or.inr (Or.inr h)
          rw [setTimer_invalid_kind t h1 hk]
        · rw [setTimer_invalid_sig ty t h1]
  · intro h
    rcases ue with _ | e
    · exact absurd rfl h
    · by_cases h1 : (st.attrs e).signature = EVENT_SIGNATURE
      · by_cases hk : ty < 0 ∨ ty > timerRelative ∨ (st.attrs e).evType &&& EVT_TIMER = 0
        · rw [setTimer_invalid_kind t h1 hk] at h
          exact absurd rfl h
        · push_neg at hk
          exact setTimer_success t h1 hk.2.2 hk.1 hk.2.1
      · rw [setTimer_invalid_sig ty t h1] at h
        exact absurd rfl h

/-- C4 witness: the amended characterization evaluated on the fresh all-valid
state for a `TimerRelative` request. -/
theorem claim4_witness :
    (((CoreSetTimer st0 (some 0) timerRelative 5).2 = Status.invalidParameter
      ↔ some 0 = none ∨ ∃ e, some 0 = some e
          ∧ ((st0.attrs e).signature ≠ EVENT_SIGNATURE
             ∨ timerRelative < 0 ∨ timerRelative > timerRelative
             ∨ (st0.attrs e).evType &&& EVT_TIMER = 0))
    ∧ ((CoreSetTimer st0 (some 0) timerRelative 5).2 = Status.invalidParameter
        → (CoreSetTimer st0 (some 0) timerRelative 5).1 = st0)
    ∧ ((CoreSetTimer st0 (some 0) timerRelative 5).2 ≠ Status.invalidParameter
        → (CoreSetTimer st0 (some 0) timerRelative 5).2 = Status.success)) :=
  claim4_invalid_parameter_iff st0 (some 0) timerRelative 5

/-- C6 counterexample: the 64-bit clock wraps, so over the sequence
`[2^63, 2^63]` the current time is neither the sum of the durations nor
non-decreasing. -/
theorem claim6_wrap_counterexample :
    CoreCurrentSystemTime (runTicks st0 [2 ^ 63, 2 ^ 63]) ≠ 2 ^ 63 + 2 ^ 63
    ∧ CoreCurrentSystemTime (runTicks st0 [2 ^ 63, 2 ^ 63])
        < CoreCurrentSystemTime (runTicks st0 [2 ^ 63]) := by
  decide

/-- C6 (amended): for any sequence of `CoreTimerTick` durations whose total
stays below `2 ^ 64`, the current time after the whole sequence equals the sum
of all durations, and the current time after any of its front parts never
exceeds it (the clock is non-decreasing). -/
theorem claim6_clock_sum (attrs : EventId → EventAttrs) (ds : List Nat)
    (h : ds.sum < U64) :
    CoreCurrentSystemTime (runTicks (initState attrs) ds) = ds.sum
    ∧ ∀ front back, ds = front ++ back →
        CoreCurrentSystemTime (runTicks (initState attrs) front)
          ≤ CoreCurrentSystemTime (runTicks (initState attrs) ds) := by
  have hmain : ∀ (l : List Nat), l.sum < U64 →
      CoreCurrentSystemTime (runTicks (initState attrs) l) = l.sum := by
    intro l hl
    have h0 : (initState attrs).systemTime + l.sum < U64 := by
      simpa [initState] using hl
    have := runTicks_systemTime l (initState attrs) h0
    simpa [CoreCurrentSystemTime, initState] using this
  refine ⟨hmain ds h, ?_⟩
  intro front back hsplit
  have hfront : front.sum < U64 := by
    subst hsplit
    rw [List.sum_append] at h
    omega
  rw [hmain ds h, hmain front hfront]
  subst hsplit
  rw [List.sum_append]
  omega

/-- C6 witness: the amended clock law evaluated on the durations `[5, 7]`. -/
theorem claim6_witness :
    CoreCurrentSystemTime (runTicks (initState attrs0) [5, 7]) = [5, 7].sum
    ∧ ∀ front back, [5, 7] = front ++ back →
        CoreCurrentSystemTime (runTicks (initState attrs0) front)
          ≤ CoreCurrentSystemTime (runTicks (initState attrs0) [5, 7]) :=
  claim6_clock_sum attrs0 [5, 7] (by decide)

theorem setTimer_cancel_noop {st : TState} {e : EventId} (t : Nat)
    (h1 : (st.attrs e).signature = EVENT_SIGNATURE)
    (h2 : (st.attrs e).evType &&& EVT_TIMER ≠ 0)
    (hq : e ∉ st.queue) (hz : st.timers e = ⟨0, 0⟩) :
    CoreSetTimer st (some e) timerCancel t = (st, Status.success) := by
  rw [setTimer_cancel t h1 h2, List.erase_of_not_mem hq]
  conv_lhs => rw [← hz]
  rw [Function.update_eq_self]

/-- C8: cancelling is always safe and idempotent on a valid timer event: it
returns `EFI_SUCCESS`, leaves the event out of the queue with `TriggerTime`
and `Period` both zero (whether or not it was ever armed), and a second
cancel returns `EFI_SUCCESS` again without changing the state at all. -/
theorem claim8_cancel_idempotent (st : TState) (e : EventId) (t tnext : Nat)
    (h1 : (st.attrs e).signature = EVENT_SIGNATURE)
    (h2 : (st.attrs e).evType &&& EVT_TIMER ≠ 0)
    (hnd : st.queue.Nodup) :
    (CoreSetTimer st (some e) timerCancel t).2 = Status.success
    ∧ e ∉ (CoreSetTimer st (some e) timerCancel t).1.queue
    ∧ (CoreSetTimer st (some e) timerCancel t).1.timers e = ⟨0, 0⟩
    ∧ CoreSetTimer (CoreSetTimer st (some e) timerCancel t).1 (some e) timerCancel tnext
        = ((CoreSetTimer st (some e) timerCancel t).1, Status.success) := by
  rw [setTimer_cancel t h1 h2]
  refine ⟨rfl, hnd.not_mem_erase, Function.update_same e _ _, ?_⟩
  exact setTimer_cancel_noop tnext h1 h2 hnd.not_mem_erase (Function.update_same e _ _)

/-- C8 witness: cancel twice on event 0 of the fresh all-valid state. -/
theorem claim8_witness :
    (CoreSetTimer st0 (some 0) timerCancel 3).2 = Status.success
    ∧ 0 ∉ (CoreSetTimer st0 (some 0) timerCancel 3).1.queue
    ∧ (CoreSetTimer st0 (some 0) timerCancel 3).1.timers 0 = ⟨0, 0⟩
    ∧ CoreSetTimer (CoreSetTimer st0 (some 0) timerCancel 3).1 (some 0) timerCancel 4
        = ((CoreSetTimer st0 (some 0) timerCancel 3).1, Status.success) :=
  claim8_cancel_idempotent st0 0 3 4 (by decide) (by decide) (by decide)

/-- C3: after any sequence of `CoreSetTimer` calls from the initialized state,
the queue read head-to-tail has non-decreasing `TriggerTime`; moreover
insertion is stable: `CoreInsertEventTimer` places the new entry exactly after
the maximal front run of entries with deadline at most its own, and in a
sorted queue every existing entry with deadline at most the new one belongs to
that front run (hence ends up before the new entry). -/
theorem claim3_sorted_stable_insertion :
    (∀ (attrs : EventId → EventAttrs) (calls : List (Option EventId × Int × Nat)),
      SortedQ (runSetTimers (initState attrs) calls))
    ∧ (∀ (tm : EventId → TimerData) (e : EventId) (l : List EventId),
        CoreInsertEventTimer tm e l
          = l.takeWhile (fun x => (tm x).triggerTime ≤ (tm e).triggerTime)
            ++ e :: l.dropWhile (fun x => (tm x).triggerTime ≤ (tm e).triggerTime))
    ∧ (∀ (tm : EventId → TimerData) (e : EventId) (l : List EventId),
        ((l.map fun x => (tm x).triggerTime).Pairwise (· ≤ ·)) →
          ∀ x ∈ l, (tm x).triggerTime ≤ (tm e).triggerTime →
            x ∈ l.takeWhile (fun z => (tm z).triggerTime ≤ (tm e).triggerTime)) := by
  refine ⟨?_, insertTimer_eq, fun tm e l hs x hx hxe => mem_takeWhile_of_sorted hs x hx hxe⟩
  intro attrs calls
  exact (runSetTimers_inv calls (initState attrs) ⟨List.nodup_nil, List.Pairwise.nil⟩).2

/-- C3 witness: the sort invariant after arming events 1 and 2 (the spec's
concrete scenario), and stability on a two-element sorted queue. -/
theorem claim3_witness :
    SortedQ (runSetTimers (initState attrs0)
      [(some 1, timerRelative, 100), (some 2, timerRelative, 50)])
    ∧ (1 : EventId) ∈ ([1, 2].takeWhile
        (fun z => ((fun _ => (⟨5, 0⟩ : TimerData)) z).triggerTime
          ≤ ((fun _ => (⟨5, 0⟩ : TimerData)) (3 : EventId)).triggerTime)) :=
  ⟨claim3_sorted_stable_insertion.1 attrs0
      [(some 1, timerRelative, 100), (some 2, timerRelative, 50)],
   claim3_sorted_stable_insertion.2.2 (fun _ => ⟨5, 0⟩) 3 [1, 2] (by decide) 1
      (by decide) (by decide)⟩

/-- C7: an event is never linked into the timer queue more than once:
`CoreSetTimer` and the drain loop preserve queue duplicate-freedom, the tick
path never touches the queue, and a successful arm leaves the armed event
with exactly one queue entry. -/
theorem claim7_no_duplicate_membership :
    (∀ (st : TState) (ue : Option EventId) (ty : Int) (t : Nat),
      st.queue.Nodup → (CoreSetTimer st ue ty t).1.queue.Nodup)
    ∧ (∀ (st : TState) (e : EventId) (ty : Int) (t : Nat),
        st.queue.Nodup →
        (st.attrs e).signature = EVENT_SIGNATURE →
        (st.attrs e).evType &&& EVT_TIMER ≠ 0 →
        (ty = timerPeriodic ∨ ty = timerRelative) →
        (CoreSetTimer st (some e) ty t).1.queue.count e = 1)
    ∧ (∀ (fuel now : Nat) (st : TState),
        st.queue.Nodup → (checkTimersLoop fuel now st).queue.Nodup)
    ∧ (∀ (st : TState) (d : Nat), (CoreTimerTick st d).queue = st.queue) := by
  refine ⟨fun st ue ty t hnd => setTimer_nodup st ue ty t hnd, ?_,
    fun fuel now st hnd => loop_nodup fuel st hnd, tick_queue⟩
  intro st e ty t hnd h1 h2 h3
  rw [setTimer_arm t h1 h2 h3]
  have hperm := insertTimer_perm
    (Function.update st.timers e
      ⟨(st.systemTime + t) % U64, if ty = timerPeriodic then t else 0⟩)
    e (st.queue.erase e)
  rw [hperm.count_eq e, List.count_cons_self,
    List.count_eq_zero.2 hnd.not_mem_erase]

/-- C7 witness: arming event 0 relative on the fresh state yields one queue
entry, and a tick leaves the queue untouched. -/
theorem claim7_witness :
    (CoreSetTimer st0 (some 0) timerRelative 5).1.queue.count 0 = 1
    ∧ (CoreTimerTick st0 3).queue = st0.queue :=
  ⟨claim7_no_duplicate_membership.2.1 st0 0 timerRelative 5 (by decide) (by decide)
      (by decide) (Or.inr rfl),
   claim7_no_duplicate_membership.2.2.2 st0 3⟩

/-- C1 counterexample: when `TriggerTime + Period` overflows 64 bits the
wrapped deadline is clamped to the snapshot again and again, and the same
entry is signalled twice at the same logical deadline within one drain pass
(the C loop, fuel-free, never terminates there). -/
theorem claim1_overflow_counterexample :
    ¬ ((deadlinesFor 0 (checkTimersLoop 2 (U64 - 1) stOverflow).signaled).Pairwise
        (· < ·)) := by
  decide

/-- C1 (amended): a removed head entry with nonzero period gets its next
deadline computed as the old trigger time plus the period (64-bit wrap), not
as `now + period`; when that deadline is still at most the snapshot it is
clamped to the snapshot and another Expiry Processor run is requested; and
provided `now + period` does not overflow 64 bits for the queued entries, no
event is ever signalled twice at the same logical deadline within a single
drain pass (its logged deadlines strictly increase). -/
theorem claim1_periodic_rearm (st : TState) (now : Nat) (e : EventId)
    (rest : List EventId)
    (hq : st.queue = e :: rest)
    (hdue : (st.timers e).triggerTime ≤ now)
    (hper : (st.timers e).period ≠ 0) :
    (∃ st', checkTimersStep now st = some st'
      ∧ (st'.timers e).triggerTime
          = (if ((st.timers e).triggerTime + (st.timers e).period) % U64 ≤ now then now
             else ((st.timers e).triggerTime + (st.timers e).period) % U64)
      ∧ (((st.timers e).triggerTime + (st.timers e).period) % U64 ≤ now
          → st'.checkSignaled = true))
    ∧ (st.queue.Nodup → st.signaled = []
        → (∀ x ∈ st.queue, now + (st.timers x).period < U64)
        → ∀ (fuel : Nat) (y : EventId),
            (deadlinesFor y (checkTimersLoop fuel now st).signaled).Pairwise
              (· < ·)) := by
  constructor
  · by_cases hc : ((st.timers e).triggerTime + (st.timers e).period) % U64 ≤ now
    · refine ⟨_, step_periodic_clamp hq hdue hper hc, ?_, fun _ => rfl⟩
      rw [if_pos hc]
      show (Function.update st.timers e ⟨now, (st.timers e).period⟩ e).triggerTime = now
      rw [Function.update_same]
    · refine ⟨_, step_periodic_ahead hq hdue hper hc, ?_, fun hcc => absurd hcc hc⟩
      rw [if_neg hc]
      show (Function.update st.timers e
        ⟨((st.timers e).triggerTime + (st.timers e).period) % U64,
         (st.timers e).period⟩ e).triggerTime
        = ((st.timers e).triggerTime + (st.timers e).period) % U64
      rw [Function.update_same]
  · intro hnd hsig hov fuel y
    have hinv : C1Inv now st := by
      refine ⟨hnd, ?_, ?_, hov⟩
      · intro z
        rw [hsig]
        exact List.Pairwise.nil
      · intro x _ d hd
        rw [hsig] at hd
        cases hd
    exact (loop_c1inv fuel st hinv).2.1 y

/-- C1 witness: the expired periodic timer of `stPer` (deadline 10, period 10,
snapshot 35) is clamped to the snapshot, a re-run is requested, and its logged
deadlines in the pass are strictly increasing. -/
theorem claim1_witness :
    (∃ st', checkTimersStep 35 stPer = some st'
      ∧ (st'.timers 0).triggerTime
          = (if ((stPer.timers 0).triggerTime + (stPer.timers 0).period) % U64 ≤ 35
             then 35
             else ((stPer.timers 0).triggerTime + (stPer.timers 0).period) % U64)
      ∧ (((stPer.timers 0).triggerTime + (stPer.timers 0).period) % U64 ≤ 35
          → st'.checkSignaled = true))
    ∧ (stPer.queue.Nodup → stPer.signaled = []
        → (∀ x ∈ stPer.queue, 35 + (stPer.timers x).period < U64)
        → ∀ (fuel : Nat) (y : EventId),
            (deadlinesFor y (checkTimersLoop fuel 35 stPer).signaled).Pairwise
              (· < ·)) :=
  claim1_periodic_rearm stPer 35 0 [] rfl (by decide) (by decide)

theorem checkTimers_eq_loop (fuel : Nat) (st : TState) :
    CoreCheckTimers fuel st = checkTimersLoop fuel (CoreCurrentSystemTime st) st := rfl

/-- Arming `e` with a zero stored period into a duplicate-free all-one-shot
queue and then running a drain pass whose snapshot is at or past the new
deadline signals `e` exactly once and removes it from the queue. `st2` is any
state agreeing with the post-arm state on queue, timers and (empty) log. -/
theorem arm_then_drain (st st2 : TState) (e : EventId) (ty : Int) (t : Nat)
    (now fuel : Nat)
    (h1 : (st.attrs e).signature = EVENT_SIGNATURE)
    (h2 : (st.attrs e).evType &&& EVT_TIMER ≠ 0)
    (hty : ty = timerPeriodic ∨ ty = timerRelative)
    (hnd : st.queue.Nodup)
    (hper : ∀ x ∈ st.queue, (st.timers x).period = 0)
    (hzero : (if ty = timerPeriodic then t else 0) = 0)
    (hq2 : st2.queue = (CoreSetTimer st (some e) ty t).1.queue)
    (htm2 : st2.timers = (CoreSetTimer st (some e) ty t).1.timers)
    (hsig2 : st2.signaled = [])
    (hdue : (st.systemTime + t) % U64 ≤ now)
    (hfuel : st.queue.length + 1 ≤ fuel) :
    ((checkTimersLoop fuel now st2).signaled.map Prod.fst).count e = 1
    ∧ e ∉ (checkTimersLoop fuel now st2).queue := by
  have hq1 : st2.queue
      = CoreInsertEventTimer
          (Function.update st.timers e
            ⟨(st.systemTime + t) % U64, if ty = timerPeriodic then t else 0⟩)
          e (st.queue.erase e) := by
    rw [hq2, setTimer_arm t h1 h2 hty]
  have htm1 : st2.timers
      = Function.update st.timers e
          ⟨(st.systemTime + t) % U64, if ty = timerPeriodic then t else 0⟩ := by
    rw [htm2, setTimer_arm t h1 h2 hty]
  refine armed_drain hq1 htm1 hsig2 (hnd.erase e) hnd.not_mem_erase ?_ ?_ ?_
  · intro x hx
    rcases hx with rfl | hx
    · rw [Function.update_same]
      exact hzero
    · have hxe : x ≠ e := ((List.Nodup.mem_erase_iff hnd).1 hx).1
      rw [Function.update_noteq hxe]
      exact hper x ((List.erase_sublist e st.queue).subset hx)
  · rw [Function.update_same]
    exact hdue
  · have := (List.erase_sublist e st.queue).length_le
    omega

/-! ## Helper lemmas: the drain pass terminates and signals every due entry -/

theorem rearmWeight_pos_of_due {now : Nat} {tm : EventId → TimerData} {x : EventId}
    (h : (tm x).triggerTime ≤ now) : 1 ≤ rearmWeight now tm x := by
  unfold rearmWeight
  rw [if_neg (Nat.not_lt.2 h)]
  split
  · omega
  · omega

theorem rearmWeight_eq_zero {now : Nat} {tm : EventId → TimerData} {x : EventId}
    (h : rearmWeight now tm x = 0) : now < (tm x).triggerTime := by
  by_contra hc
  have := rearmWeight_pos_of_due (Nat.not_lt.1 hc)
  omega

theorem rearmWeight_le_two (now : Nat) (tm : EventId → TimerData) (x : EventId) :
    rearmWeight now tm x ≤ 2 := by
  unfold rearmWeight
  split
  · omega
  · split
    · omega
    · omega

theorem drainMeasure_le_two_mul (now : Nat) (st : TState) :
    drainMeasure now st ≤ 2 * st.queue.length := by
  unfold drainMeasure
  have h : ∀ l : List EventId, (l.map (rearmWeight now st.timers)).sum ≤ 2 * l.length := by
    intro l
    induction l with
    | nil => simp
    | cons a as ih =>
      rw [List.map_cons, List.sum_cons, List.length_cons]
      have := rearmWeight_le_two now st.timers a
      omega
  exact h st.queue

theorem step_hov {now : Nat} {st st' : TState} (h : checkTimersStep now st = some st')
    (hnd : st.queue.Nodup)
    (hov : ∀ x ∈ st.queue, now + (st.timers x).period < U64) :
    ∀ x ∈ st'.queue, now + (st'.timers x).period < U64 := by
  refine step_elim h ?_ ?_ ?_
  · intro e rest hq _ _ hst
    subst hst
    intro x hx
    simp only at hx ⊢
    exact hov x (hq ▸ List.mem_cons_of_mem e hx)
  · intro e rest hq _ _ _ hst
    subst hst
    rw [hq, List.nodup_cons] at hnd
    intro x hx
    simp only at hx ⊢
    rcases mem_insertTimer.1 hx with rfl | hx'
    · rw [Function.update_same]
      exact hov x (hq ▸ List.mem_cons_self x rest)
    · have hxe : x ≠ e := fun heq => hnd.1 (by subst heq; exact hx')
      rw [Function.update_noteq hxe]
      exact hov x (hq ▸ List.mem_cons_of_mem e hx')
  · intro e rest hq _ _ _ hst
    subst hst
    rw [hq, List.nodup_cons] at hnd
    intro x hx
    simp only at hx ⊢
    rcases mem_insertTimer.1 hx with rfl | hx'
    · rw [Function.update_same]
      exact hov x (hq ▸ List.mem_cons_self x rest)
    · have hxe : x ≠ e := fun heq => hnd.1 (by subst heq; exact hx')
      rw [Function.update_noteq hxe]
      exact hov x (hq ▸ List.mem_cons_of_mem e hx')

theorem step_sorted {now : Nat} {st st' : TState} (h : checkTimersStep now st = some st')
    (hnd : st.queue.Nodup) (hs : SortedQ st) : SortedQ st' := by
  unfold SortedQ at hs
  refine step_elim h ?_ ?_ ?_
  · intro e rest hq _ _ hst
    subst hst
    unfold SortedQ
    simp only
    rw [hq, List.map_cons] at hs
    exact (List.pairwise_cons.1 hs).2
  · intro e rest hq _ _ _ hst
    subst hst
    rw [hq, List.nodup_cons] at hnd
    unfold SortedQ
    simp only
    apply insertTimer_sorted
    have hcongr : (rest.map fun x =>
        ((Function.update st.timers e ⟨now, (st.timers e).period⟩) x).triggerTime)
        = rest.map fun x => (st.timers x).triggerTime :=
      List.map_congr_left (fun x hx => by
        rw [Function.update_noteq (fun heq => hnd.1 (by subst heq; exact hx))])
    rw [hcongr]
    rw [hq, List.map_cons] at hs
    exact (List.pairwise_cons.1 hs).2
  · intro e rest hq _ _ _ hst
    subst hst
    rw [hq, List.nodup_cons] at hnd
    unfold SortedQ
    simp only
    apply insertTimer_sorted
    have hcongr : (rest.map fun x =>
        ((Function.update st.timers e
          ⟨((st.timers e).triggerTime + (st.timers e).period) % U64,
           (st.timers e).period⟩) x).triggerTime)
        = rest.map fun x => (st.timers x).triggerTime :=
      List.map_congr_left (fun x hx => by
        rw [Function.update_noteq (fun heq => hnd.1 (by subst heq; exact hx))])
    rw [hcongr]
    rw [hq, List.map_cons] at hs
    exact (List.pairwise_cons.1 hs).2

theorem rearmWeight_congr {now : Nat} {tm tm' : EventId → TimerData} {x : EventId}
    (h : tm x = tm' x) : rearmWeight now tm x = rearmWeight now tm' x := by
  unfold rearmWeight
  rw [h]

theorem step_measure_lt {now : Nat} {st st' : TState}
    (h : checkTimersStep now st = some st') (hnd : st.queue.Nodup)
    (hov : ∀ x ∈ st.queue, now + (st.timers x).period < U64) :
    drainMeasure now st' < drainMeasure now st := by
  refine step_elim h ?_ ?_ ?_
  · intro e rest hq hdue _ hst
    subst hst
    unfold drainMeasure
    simp only
    rw [hq, List.map_cons, List.sum_cons]
    have hw := @rearmWeight_pos_of_due now st.timers e hdue
    omega
  · intro e rest hq hdue hp hc hst
    subst hst
    rw [hq, List.nodup_cons] at hnd
    have he : e ∈ st.queue := hq ▸ List.mem_cons_self e rest
    unfold drainMeasure
    simp only
    rw [List.Perm.sum_eq ((insertTimer_perm _ e rest).map _), List.map_cons,
      List.sum_cons]
    have hcongr : (rest.map
        (rearmWeight now (Function.update st.timers e ⟨now, (st.timers e).period⟩)))
        = rest.map (rearmWeight now st.timers) :=
      List.map_congr_left (fun x hx => rearmWeight_congr
        (Function.update_noteq (fun heq => hnd.1 (by subst heq; exact hx)) _ _))
    rw [hcongr, hq, List.map_cons, List.sum_cons]
    have hw' : rearmWeight now
        (Function.update st.timers e ⟨now, (st.timers e).period⟩) e = 1 := by
      unfold rearmWeight
      rw [Function.update_same]
      rw [if_neg (lt_irrefl now)]
      refine if_neg ?_
      rintro ⟨_, hle⟩
      rw [Nat.mod_eq_of_lt (hov e he)] at hle
      omega
    have hw : rearmWeight now st.timers e = 2 := by
      unfold rearmWeight
      rw [if_neg (Nat.not_lt.2 hdue), if_pos ⟨hp, hc⟩]
    omega
  · intro e rest hq hdue hp hc hst
    subst hst
    rw [hq, List.nodup_cons] at hnd
    unfold drainMeasure
    simp only
    rw [List.Perm.sum_eq ((insertTimer_perm _ e rest).map _), List.map_cons,
      List.sum_cons]
    have hcongr : (rest.map
        (rearmWeight now (Function.update st.timers e
          ⟨((st.timers e).triggerTime + (st.timers e).period) % U64,
           (st.timers e).period⟩)))
        = rest.map (rearmWeight now st.timers) :=
      List.map_congr_left (fun x hx => rearmWeight_congr
        (Function.update_noteq (fun heq => hnd.1 (by subst heq; exact hx)) _ _))
    rw [hcongr, hq, List.map_cons, List.sum_cons]
    have hw' : rearmWeight now
        (Function.update st.timers e
          ⟨((st.timers e).triggerTime + (st.timers e).period) % U64,
           (st.timers e).period⟩) e = 0 := by
      unfold rearmWeight
      rw [Function.update_same]
      rw [if_pos (Nat.not_le.1 hc)]
    have hw := @rearmWeight_pos_of_due now st.timers e hdue
    omega

theorem step_none_elim {now : Nat} {st : TState} (h : checkTimersStep now st = none) :
    st.queue = [] ∨ ∃ e rest, st.queue = e :: rest ∧ now < (st.timers e).triggerTime := by
  rcases hq : st.queue with _ | ⟨e, rest⟩
  · exact Or.inl rfl
  · by_cases hlt : now < (st.timers e).triggerTime
    · exact Or.inr ⟨e, rest, rfl, hlt⟩
    · exfalso
      have hdue := Nat.le_of_not_lt hlt
      by_cases hp : (st.timers e).period = 0
      · rw [step_oneShot hq hdue hp] at h
        cases h
      · by_cases hc : ((st.timers e).triggerTime + (st.timers e).period) % U64 ≤ now
        · rw [step_periodic_clamp hq hdue hp hc] at h
          cases h
        · rw [step_periodic_ahead hq hdue hp hc] at h
          cases h

theorem loop_stops {now : Nat} : ∀ (fuel : Nat) (st : TState),
    st.queue.Nodup →
    (∀ x ∈ st.queue, now + (st.timers x).period < U64) →
    drainMeasure now st ≤ fuel →
    (checkTimersLoop fuel now st).queue = []
    ∨ ∃ y rest, (checkTimersLoop fuel now st).queue = y :: rest
        ∧ now < ((checkTimersLoop fuel now st).timers y).triggerTime := by
  intro fuel
  induction fuel with
  | zero =>
    intro st _ _ hm
    show st.queue = []
      ∨ ∃ y rest, st.queue = y :: rest ∧ now < (st.timers y).triggerTime
    have hm0 : drainMeasure now st = 0 := Nat.le_zero.1 hm
    rcases hq : st.queue with _ | ⟨y, rest⟩
    · exact Or.inl rfl
    · right
      unfold drainMeasure at hm0
      rw [hq, List.map_cons, List.sum_cons] at hm0
      exact ⟨y, rest, rfl, rearmWeight_eq_zero (by omega)⟩
  | succ n ih =>
    intro st hnd hov hm
    rcases hs : checkTimersStep now st with _ | st'
    · rw [loop_succ_none n hs]
      rcases step_none_elim hs with hq | ⟨y, rest, hq, hlt⟩
      · exact Or.inl hq
      · exact Or.inr ⟨y, rest, hq, hlt⟩
    · rw [loop_succ_some n hs]
      refine ih st' (step_nodup hs hnd) (step_hov hs hnd hov) ?_
      have := step_measure_lt hs hnd hov
      omega

theorem step_signaled_eq {now : Nat} {st st' : TState} {e : EventId}
    {rest : List EventId} (h : checkTimersStep now st = some st')
    (hq : st.queue = e :: rest) :
    st'.signaled = st.signaled ++ [(e, (st.timers e).triggerTime)] := by
  refine step_elim h ?_ ?_ ?_
  · intro e' rest' hq' _ _ hst
    subst hst
    rw [hq] at hq'
    cases hq'
    rfl
  · intro e' rest' hq' _ _ _ hst
    subst hst
    rw [hq] at hq'
    cases hq'
    rfl
  · intro e' rest' hq' _ _ _ hst
    subst hst
    rw [hq] at hq'
    cases hq'
    rfl

theorem step_signaled_extends {now : Nat} {st st' : TState}
    (h : checkTimersStep now st = some st') :
    ∃ p, st'.signaled = st.signaled ++ [p] := by
  rcases hq : st.queue with _ | ⟨e, rest⟩
  · rw [step_none_of_empty hq] at h
    cases h
  · exact ⟨(e, (st.timers e).triggerTime), step_signaled_eq h hq⟩

theorem loop_signaled_extends {now : Nat} : ∀ (fuel : Nat) (st : TState),
    ∃ tail, (checkTimersLoop fuel now st).signaled = st.signaled ++ tail := by
  intro fuel
  induction fuel with
  | zero =>
    intro st
    exact ⟨[], (List.append_nil _).symm⟩
  | succ n ih =>
    intro st
    rcases hs : checkTimersStep now st with _ | st'
    · rw [loop_succ_none n hs]
      exact ⟨[], (List.append_nil _).symm⟩
    · rw [loop_succ_some n hs]
      obtain ⟨p, hp⟩ := step_signaled_extends hs
      obtain ⟨tail, htail⟩ := ih st'
      exact ⟨p :: tail, by rw [htail, hp, List.append_assoc, List.singleton_append]⟩

theorem step_mem_rest {now : Nat} {st st' : TState} {e x : EventId}
    {rest : List EventId} (h : checkTimersStep now st = some st')
    (hq : st.queue = e :: rest) (hx : x ∈ rest) (hxe : x ≠ e) :
    x ∈ st'.queue ∧ st'.timers x = st.timers x := by
  refine step_elim h ?_ ?_ ?_
  · intro e' rest' hq' _ _ hst
    subst hst
    rw [hq] at hq'
    cases hq'
    exact ⟨hx, rfl⟩
  · intro e' rest' hq' _ _ _ hst
    subst hst
    rw [hq] at hq'
    cases hq'
    exact ⟨mem_insertTimer.2 (Or.inr hx), Function.update_noteq hxe _ _⟩
  · intro e' rest' hq' _ _ _ hst
    subst hst
    rw [hq] at hq'
    cases hq'
    exact ⟨mem_insertTimer.2 (Or.inr hx), Function.update_noteq hxe _ _⟩

theorem loop_signals_expired {now : Nat} : ∀ (fuel : Nat) (st : TState),
    st.queue.Nodup → SortedQ st →
    (∀ x ∈ st.queue, now + (st.timers x).period < U64) →
    drainMeasure now st ≤ fuel →
    ∀ x ∈ st.queue, (st.timers x).triggerTime ≤ now →
      x ∈ (checkTimersLoop fuel now st).signaled.map Prod.fst := by
  intro fuel
  induction fuel with
  | zero =>
    intro st _ _ _ hm x hx hdue
    exfalso
    have h1 := @rearmWeight_pos_of_due now st.timers x hdue
    have h2 : rearmWeight now st.timers x
        ≤ (st.queue.map (rearmWeight now st.timers)).sum :=
      List.single_le_sum (fun a _ => Nat.zero_le a) _ (List.mem_map_of_mem _ hx)
    unfold drainMeasure at hm
    omega
  | succ n ih =>
    intro st hnd hs hov hm x hx hdue
    rcases hq : st.queue with _ | ⟨e, rest⟩
    · rw [hq] at hx
      cases hx
    · have hdueE : (st.timers e).triggerTime ≤ now := by
        rw [hq] at hx
        rcases List.mem_cons.1 hx with rfl | hx'
        · exact hdue
        · unfold SortedQ at hs
          rw [hq, List.map_cons] at hs
          have := (List.pairwise_cons.1 hs).1 _ (List.mem_map_of_mem _ hx')
          omega
      have hstep : ∃ st', checkTimersStep now st = some st' := by
        by_cases hp : (st.timers e).period = 0
        · exact ⟨_, step_oneShot hq hdueE hp⟩
        · by_cases hc : ((st.timers e).triggerTime + (st.timers e).period) % U64 ≤ now
          · exact ⟨_, step_periodic_clamp hq hdueE hp hc⟩
          · exact ⟨_, step_periodic_ahead hq hdueE hp hc⟩
      obtain ⟨st', hs'⟩ := hstep
      rw [loop_succ_some n hs']
      by_cases hxe : x = e
      · subst hxe
        obtain ⟨tail, htail⟩ := loop_signaled_extends n st'
        rw [htail, step_signaled_eq hs' hq]
        refine List.mem_map.2 ⟨(x, (st.timers x).triggerTime), ?_, rfl⟩
        simp
      · have hx' : x ∈ rest := by
          rw [hq] at hx
          rcases List.mem_cons.1 hx with heq | hx'
          · exact absurd heq hxe
          · exact hx'
        obtain ⟨hxq, hxtm⟩ := step_mem_rest hs' hq hx' hxe
        refine ih st' (step_nodup hs' hnd) (step_sorted hs' hnd hs)
          (step_hov hs' hnd hov) ?_ x hxq ?_
        · have := step_measure_lt hs' hnd hov
          omega
        · rw [hxtm]
          exact hdue

/-- C9: arming with a zero `TriggerTime` argument (any non-cancel kind)
requests an immediate Expiry Processor run, and `set_timer(e, Relative, 0)`
makes `e` fire on the very next Expiry Processor run with no further tick:
on an all-one-shot queue the run signals `e` exactly once and leaves it out of
the queue, and on any sorted queue (periodic entries allowed, no 64-bit
re-arm overflow) `e` is among the events the run signals. -/
theorem claim9_zero_delay (st : TState) (e : EventId) (ty : Int) (fuel : Nat)
    (h1 : (st.attrs e).signature = EVENT_SIGNATURE)
    (h2 : (st.attrs e).evType &&& EVT_TIMER ≠ 0)
    (hty : ty = timerPeriodic ∨ ty = timerRelative)
    (hnd : st.queue.Nodup)
    (hsig : st.signaled = [])
    (hT : st.systemTime < U64) :
    (CoreSetTimer st (some e) ty 0).1.checkSignaled = true
    ∧ ((∀ x ∈ st.queue, (st.timers x).period = 0) → st.queue.length + 1 ≤ fuel →
        ((CoreCheckTimers fuel (CoreSetTimer st (some e) timerRelative 0).1).signaled.map
          Prod.fst).count e = 1
        ∧ e ∉ (CoreCheckTimers fuel (CoreSetTimer st (some e) timerRelative 0).1).queue)
    ∧ (SortedQ st
        → (∀ x ∈ st.queue, st.systemTime + (st.timers x).period < U64)
        → 2 * (st.queue.length + 1) ≤ fuel
        → e ∈ ((CoreCheckTimers fuel
            (CoreSetTimer st (some e) timerRelative 0).1).signaled.map Prod.fst)) := by
  refine ⟨?_, ?_, ?_⟩
  · rw [setTimer_arm 0 h1 h2 hty]
    simp
  · intro hper hfuel
    rw [checkTimers_eq_loop]
    refine arm_then_drain st _ e timerRelative 0 _ fuel h1 h2 (Or.inr rfl) hnd hper
      (by simp [timerRelative, timerPeriodic]) rfl rfl ?_ ?_ hfuel
    · rw [setTimer_arm 0 h1 h2 (Or.inr rfl)]
      exact hsig
    · show (st.systemTime + 0) % U64
        ≤ CoreCurrentSystemTime (CoreSetTimer st (some e) timerRelative 0).1
      rw [setTimer_arm 0 h1 h2 (Or.inr rfl)]
      show (st.systemTime + 0) % U64 ≤ st.systemTime
      rw [Nat.add_zero, Nat.mod_eq_of_lt hT]
  · intro hsorted hov2 hfuel2
    have hnd1 := setTimer_nodup st (some e) timerRelative 0 hnd
    have hs1 := setTimer_sorted st (some e) timerRelative 0 hnd hsorted
    rw [checkTimers_eq_loop, setTimer_arm 0 h1 h2 (Or.inr rfl)]
    rw [setTimer_arm 0 h1 h2 (Or.inr rfl)] at hnd1 hs1
    refine loop_signals_expired fuel _ hnd1 hs1 ?_ ?_ e ?_ ?_
    · intro x hx
      rcases mem_insertTimer.1 hx with rfl | hx'
      · show st.systemTime + ((Function.update st.timers x
            ⟨(st.systemTime + 0) % U64,
             if timerRelative = timerPeriodic then 0 else 0⟩) x).period < U64
        rw [Function.update_same]
        show st.systemTime + (if timerRelative = timerPeriodic then 0 else 0) < U64
        rw [if_neg (by decide : ¬ timerRelative = timerPeriodic), Nat.add_zero]
        exact hT
      · have hxe : x ≠ e := ((List.Nodup.mem_erase_iff hnd).1 hx').1
        show st.systemTime + ((Function.update st.timers e
            ⟨(st.systemTime + 0) % U64,
             if timerRelative = timerPeriodic then 0 else 0⟩) x).period < U64
        rw [Function.update_noteq hxe]
        exact hov2 x ((List.erase_sublist e st.queue).subset hx')
    · refine Nat.le_trans (drainMeasure_le_two_mul _ _) ?_
      show 2 * (CoreInsertEventTimer
          (Function.update st.timers e
            ⟨(st.systemTime + 0) % U64,
             if timerRelative = timerPeriodic then 0 else 0⟩)
          e (st.queue.erase e)).length ≤ fuel
      rw [(insertTimer_perm _ e _).length_eq, List.length_cons]
      have hlen := (List.erase_sublist e st.queue).length_le
      omega
    · exact mem_insertTimer.2 (Or.inl rfl)
    · show ((Function.update st.timers e
          ⟨(st.systemTime + 0) % U64,
           if timerRelative = timerPeriodic then 0 else 0⟩) e).triggerTime
        ≤ st.systemTime
      rw [Function.update_same]
      show (st.systemTime + 0) % U64 ≤ st.systemTime
      rw [Nat.add_zero, Nat.mod_eq_of_lt hT]

/-- C9 witness: arming event 0 of the fresh state with `Relative, 0`. -/
theorem claim9_witness :
    (CoreSetTimer st0 (some 0) timerRelative 0).1.checkSignaled = true
    ∧ (((CoreCheckTimers 2 (CoreSetTimer st0 (some 0) timerRelative 0).1).signaled.map
        Prod.fst).count 0 = 1
      ∧ 0 ∉ (CoreCheckTimers 2 (CoreSetTimer st0 (some 0) timerRelative 0).1).queue)
    ∧ 0 ∈ ((CoreCheckTimers 2
        (CoreSetTimer st0 (some 0) timerRelative 0).1).signaled.map Prod.fst) :=
  ⟨(claim9_zero_delay st0 0 timerRelative 2 (by decide) (by decide) (Or.inr rfl)
      (by decide) (by decide) (by decide)).1,
   (claim9_zero_delay st0 0 timerRelative 2 (by decide) (by decide) (Or.inr rfl)
      (by decide) (by decide) (by decide)).2.1 (by decide) (by decide),
   (claim9_zero_delay st0 0 timerRelative 2 (by decide) (by decide) (Or.inr rfl)
      (by decide) (by decide) (by decide)).2.2 (by decide) (by decide) (by decide)⟩

/-- C10: `CoreSetTimer` with `TimerPeriodic` and a zero `TriggerTime`
argument stores a zero period, so the timer behaves as a one-shot: the
immediately requested Expiry Processor run signals it exactly once and it is
never re-queued. -/
theorem claim10_periodic_zero_oneshot (st : TState) (e : EventId) (fuel : Nat)
    (h1 : (st.attrs e).signature = EVENT_SIGNATURE)
    (h2 : (st.attrs e).evType &&& EVT_TIMER ≠ 0)
    (hnd : st.queue.Nodup)
    (hper : ∀ x ∈ st.queue, (st.timers x).period = 0)
    (hsig : st.signaled = [])
    (hT : st.systemTime < U64)
    (hfuel : st.queue.length + 1 ≤ fuel) :
    ((CoreSetTimer st (some e) timerPeriodic 0).1.timers e).period = 0
    ∧ (CoreSetTimer st (some e) timerPeriodic 0).1.checkSignaled = true
    ∧ ((CoreCheckTimers fuel (CoreSetTimer st (some e) timerPeriodic 0).1).signaled.map
        Prod.fst).count e = 1
    ∧ e ∉ (CoreCheckTimers fuel (CoreSetTimer st (some e) timerPeriodic 0).1).queue := by
  refine ⟨?_, ?_, ?_⟩
  · rw [setTimer_arm 0 h1 h2 (Or.inl rfl)]
    show (Function.update st.timers e
      ⟨(st.systemTime + 0) % U64, if timerPeriodic = timerPeriodic then 0 else 0⟩
        e).period = 0
    rw [Function.update_same]
    simp
  · rw [setTimer_arm 0 h1 h2 (Or.inl rfl)]
    simp
  · rw [checkTimers_eq_loop]
    refine arm_then_drain st _ e timerPeriodic 0 _ fuel h1 h2 (Or.inl rfl) hnd hper
      (by simp) rfl rfl ?_ ?_ hfuel
    · rw [setTimer_arm 0 h1 h2 (Or.inl rfl)]
      exact hsig
    · show (st.systemTime + 0) % U64
        ≤ CoreCurrentSystemTime (CoreSetTimer st (some e) timerPeriodic 0).1
      rw [setTimer_arm 0 h1 h2 (Or.inl rfl)]
      show (st.systemTime + 0) % U64 ≤ st.systemTime
      rw [Nat.add_zero, Nat.mod_eq_of_lt hT]

/-- C10 witness: arming event 0 of the fresh state with `Periodic, 0`. -/
theorem claim10_witness :
    ((CoreSetTimer st0 (some 0) timerPeriodic 0).1.timers 0).period = 0
    ∧ (CoreSetTimer st0 (some 0) timerPeriodic 0).1.checkSignaled = true
    ∧ ((CoreCheckTimers 1 (CoreSetTimer st0 (some 0) timerPeriodic 0).1).signaled.map
        Prod.fst).count 0 = 1
    ∧ 0 ∉ (CoreCheckTimers 1 (CoreSetTimer st0 (some 0) timerPeriodic 0).1).queue :=
  claim10_periodic_zero_oneshot st0 0 1 (by decide) (by decide) (by decide)
    (by decide) (by decide) (by decide) (by decide)

/-- C5: the Expiry Processor takes one time snapshot per invocation (the drain
loop is insensitive to the live clock); on a queue of one-shot timers it
removes and signals head entries exactly while their `TriggerTime` is at most
the snapshot, stopping at the first later head; on any duplicate-free queue
without 64-bit re-arm overflow a sufficiently fuelled pass ends with an empty
queue or an unexpired head, and when the queue is also sorted it signals every
entry whose deadline is at most the snapshot; consequently a timer armed
`Relative, t` is signalled exactly once when the clock reaches `t` past the
arm time and is absent from the queue afterwards. -/
theorem claim5_expiry_drain (st : TState) (e : EventId) (t d fuel : Nat)
    (h1 : (st.attrs e).signature = EVENT_SIGNATURE)
    (h2 : (st.attrs e).evType &&& EVT_TIMER ≠ 0)
    (hnd : st.queue.Nodup)
    (hper : ∀ x ∈ st.queue, (st.timers x).period = 0)
    (hsig : st.signaled = [])
    (htd : t ≤ d)
    (hov : st.systemTime + d < U64)
    (hfuel : st.queue.length + 1 ≤ fuel) :
    (∀ (f : Nat) (s : TState),
      CoreCheckTimers f s = checkTimersLoop f (CoreCurrentSystemTime s) s)
    ∧ (∀ (f now T : Nat) (s : TState),
        checkTimersLoop f now { s with systemTime := T }
          = { checkTimersLoop f now s with systemTime := T })
    ∧ (∀ (now f : Nat) (s : TState), (∀ x ∈ s.queue, (s.timers x).period = 0) →
        s.queue.length ≤ f →
        checkTimersLoop f now s
          = { s with
              queue := s.queue.dropWhile fun x => (s.timers x).triggerTime ≤ now
              signaled := s.signaled
                ++ (s.queue.takeWhile fun x => (s.timers x).triggerTime ≤ now).map
                  fun x => (x, (s.timers x).triggerTime) })
    ∧ (∀ (now f : Nat) (s : TState), s.queue.Nodup →
        (∀ x ∈ s.queue, now + (s.timers x).period < U64) →
        drainMeasure now s ≤ f →
        (checkTimersLoop f now s).queue = []
        ∨ ∃ y tail, (checkTimersLoop f now s).queue = y :: tail
            ∧ now < ((checkTimersLoop f now s).timers y).triggerTime)
    ∧ (∀ (now f : Nat) (s : TState), s.queue.Nodup → SortedQ s →
        (∀ x ∈ s.queue, now + (s.timers x).period < U64) →
        drainMeasure now s ≤ f →
        ∀ x ∈ s.queue, (s.timers x).triggerTime ≤ now →
          x ∈ ((checkTimersLoop f now s).signaled.map Prod.fst))
    ∧ ((CoreCheckTimers fuel
          (CoreTimerTick (CoreSetTimer st (some e) timerRelative t).1 d)).signaled.map
        Prod.fst).count e = 1
    ∧ e ∉ (CoreCheckTimers fuel
        (CoreTimerTick (CoreSetTimer st (some e) timerRelative t).1 d)).queue := by
  refine ⟨fun f s => checkTimers_eq_loop f s,
    fun f now T s => loop_systemTime_set f now T s,
    fun now f s hp hl => loop_oneShot f s hp hl,
    fun now f s hn ho hm => loop_stops f s hn ho hm,
    fun now f s hn hsd ho hm => loop_signals_expired f s hn hsd ho hm, ?_⟩
  rw [checkTimers_eq_loop]
  refine arm_then_drain st _ e timerRelative t _ fuel h1 h2 (Or.inr rfl) hnd hper
    (by simp [timerRelative, timerPeriodic]) ?_ ?_ ?_ ?_ hfuel
  · exact tick_queue _ d
  · exact tick_timers _ d
  · rw [tick_signaled, setTimer_arm t h1 h2 (Or.inr rfl)]
    exact hsig
  · show (st.systemTime + t) % U64
      ≤ CoreCurrentSystemTime
          (CoreTimerTick (CoreSetTimer st (some e) timerRelative t).1 d)
    show (st.systemTime + t) % U64
      ≤ (CoreTimerTick (CoreSetTimer st (some e) timerRelative t).1 d).systemTime
    rw [tick_systemTime, setTimer_arm t h1 h2 (Or.inr rfl)]
    show (st.systemTime + t) % U64 ≤ (st.systemTime + d) % U64
    rw [Nat.mod_eq_of_lt hov, Nat.mod_eq_of_lt (by omega : st.systemTime + t < U64)]
    omega

/-- C5 witness: the one-shot scenario on the fresh state, arming event 0 with
`Relative, 5` and advancing the clock by 7. -/
theorem claim5_witness :
    ((CoreCheckTimers 1
        (CoreTimerTick (CoreSetTimer st0 (some 0) timerRelative 5).1 7)).signaled.map
      Prod.fst).count 0 = 1
    ∧ 0 ∉ (CoreCheckTimers 1
        (CoreTimerTick (CoreSetTimer st0 (some 0) timerRelative 5).1 7)).queue :=
  (claim5_expiry_drain st0 0 5 7 1 (by decide) (by decide) (by decide) (by decide)
    (by decide) (by decide) (by decide) (by decide)).2.2.2.2.2
